import Mathlib

/-!
AVRMonitor (AVROS debug monitor): the receive FIFO, the tick scheduler and the host
command interface, embedded from `periph.c`, `main.c` and `cmnd.c`.

Conventions of the embedding.

* A C byte or `char` is a `Nat` holding its bit pattern (0..255); a C array is a
  `List Nat`; a pointer into an array is the offset from the start of that array.
* `uint8` arithmetic is written with an explicit `% 256`, `uint16` with `% 65536`;
  conversions between `char`, `uchar` and `uint8` keep the bit pattern and are not written.
* Interrupt handlers run between the modelled calls, never inside one.
* Every function takes the globals it touches as an explicit state and returns the new
  state.
-/

namespace AVRMonitor

/-! ## periph.c : serial receive FIFO -/

/-- The constant `SERIAL_RX_BUF_SIZE` of periph.h. -/
def SERIAL_RX_BUF_SIZE : Nat := 64

/-- The globals of the serial input FIFO in periph.c. `pcRx0Head` and `pcRx0Tail` are
the offsets of the two pointers from `acRx0buffer`. -/
structure RxBuf where
  acRx0buffer : List Nat
  pcRx0Head : Nat
  pcRx0Tail : Nat
  bRx0Count : Nat
deriving DecidableEq, Repr

/-- The function `serialRxBufferFlush` of periph.c. -/
def serialRxBufferFlush (r : RxBuf) : RxBuf :=
  { r with pcRx0Tail := 0, pcRx0Head := 0, bRx0Count := 0 }

/-- The guarded block inside the loop of `ISR ( USART0_RX_vect )`, periph.c lines
175-181, run when the UART data register delivers the byte `b`: this is the push of
one byte into the FIFO. -/
def USART0_RX_store (b : Nat) (r : RxBuf) : RxBuf :=
  if r.bRx0Count < SERIAL_RX_BUF_SIZE then
    { acRx0buffer := r.acRx0buffer.set r.pcRx0Tail b
      pcRx0Head := r.pcRx0Head
      pcRx0Tail := if r.pcRx0Tail + 1 ≥ SERIAL_RX_BUF_SIZE then 0 else r.pcRx0Tail + 1
      bRx0Count := (r.bRx0Count + 1) % 256 }
  else r

/-- The handler `ISR ( USART0_RX_vect )` of periph.c. The UART is the list of received
bytes not yet read: `UART_RX_DATA_AVAIL` holds while the list is non-empty and
`UART_RX_READ_BYTE` takes its first byte. Each unit of fuel is one evaluation of the loop
condition; `none` means the loop is still running when the fuel is used up. -/
def USART0_RX_vect : Nat → List Nat → RxBuf → Option (List Nat × RxBuf)
  | 0, _, _ => none
  | _ + 1, [], r => some ([], r)
  | fuel + 1, b :: rest, r =>
    if r.bRx0Count < SERIAL_RX_BUF_SIZE then
      USART0_RX_vect fuel rest (USART0_RX_store b r)
    else
      USART0_RX_vect fuel (b :: rest) r

/-- The function `serialRxDataAvail` of periph.c. -/
def serialRxDataAvail (r : RxBuf) : Bool :=
  r.bRx0Count != 0

/-- The function `getch` of periph.c: the byte returned and the new FIFO state. -/
def getch (r : RxBuf) : Nat × RxBuf :=
  if r.bRx0Count ≠ 0 then
    (r.acRx0buffer.getD r.pcRx0Head 0,
      { r with
        pcRx0Head := if r.pcRx0Head + 1 ≥ SERIAL_RX_BUF_SIZE then 0 else r.pcRx0Head + 1
        bRx0Count := (r.bRx0Count + 255) % 256 })
  else (0, r)

/-- One operation on the FIFO: a byte pushed by the receive handler, or a `getch`. -/
inductive RxOp where
  | push (b : Nat)
  | pop
deriving DecidableEq, Repr

/-- Runs a sequence of pushes and pops; the first component lists the bytes returned by
the `getch` calls, in order. -/
def rxRun : RxBuf → List RxOp → List Nat × RxBuf
  | r, [] => ([], r)
  | r, RxOp.push b :: ops => rxRun (USART0_RX_store b r) ops
  | r, RxOp.pop :: ops =>
    ((getch r).1 :: (rxRun (getch r).2 ops).1, (rxRun (getch r).2 ops).2)

/-- The bytes pushed by a sequence of operations, in order. -/
def rxPushed : List RxOp → List Nat
  | [] => []
  | RxOp.push b :: ops => b :: rxPushed ops
  | RxOp.pop :: ops => rxPushed ops

/-- The number of pops in a sequence of operations. -/
def rxPops : List RxOp → Nat
  | [] => 0
  | RxOp.push _ :: ops => rxPops ops
  | RxOp.pop :: ops => rxPops ops + 1

/-- With `n` bytes unread at the start, the sequence never holds more than 64 unread
bytes and never pops with none unread. -/
def rxAdmissible : Nat → List RxOp → Bool
  | _, [] => true
  | n, RxOp.push _ :: ops => decide (n + 1 ≤ SERIAL_RX_BUF_SIZE) && rxAdmissible (n + 1) ops
  | n, RxOp.pop :: ops => decide (0 < n) && rxAdmissible (n - 1) ops

/-- Pushes the bytes of a list one after the other. -/
def rxPushAll (bs : List Nat) (r : RxBuf) : RxBuf :=
  bs.foldl (fun s b => USART0_RX_store b s) r

/-- Calls `getch` the given number of times: the bytes returned, in order, and the
state after the last call. -/
def getchN : Nat → RxBuf → List Nat × RxBuf
  | 0, r => ([], r)
  | n + 1, r => ((getch r).1 :: (getchN n (getch r).2).1, (getchN n (getch r).2).2)

/-- The unread bytes of the FIFO, oldest first: `bRx0Count` bytes read from the head
pointer on, wrapping at the end of the array. -/
def rxContents (r : RxBuf) : List Nat :=
  (List.range r.bRx0Count).map
    (fun i => r.acRx0buffer.getD ((r.pcRx0Head + i) % SERIAL_RX_BUF_SIZE) 0)

/-- The FIFO invariant: the array has its 64 bytes, both pointers are inside it, the
count is at most 64 and the tail is `count` places after the head, modulo 64. -/
def RxInv (r : RxBuf) : Prop :=
  r.acRx0buffer.length = SERIAL_RX_BUF_SIZE ∧ r.pcRx0Head < SERIAL_RX_BUF_SIZE ∧
  r.bRx0Count ≤ SERIAL_RX_BUF_SIZE ∧
  r.pcRx0Tail = (r.pcRx0Head + r.bRx0Count) % SERIAL_RX_BUF_SIZE

/-- A FIFO state with stale array contents and stale pointers, as found before a flush. -/
def rxDemo : RxBuf :=
  { acRx0buffer := List.replicate 64 0xEE, pcRx0Head := 5, pcRx0Tail := 9, bRx0Count := 4 }

/-- Sixty bytes pushed, then seventy rounds of one push and one pop (so that both
pointers wrap), then sixty pops. -/
def rxDemoOps : List RxOp :=
  (List.range 60).map RxOp.push ++
  ((List.range 70).map (fun i => [RxOp.push (100 + i), RxOp.pop])).flatten ++
  List.replicate 60 RxOp.pop

/-- A full FIFO: 64 unread bytes, head and tail both at offset 7. -/
def rxFull : RxBuf :=
  { acRx0buffer := List.range 64, pcRx0Head := 7, pcRx0Tail := 7, bRx0Count := 64 }

/-! ## periph.c and main.c : tick handler and background task scheduler -/

/-- Modelled from the spec: gendef.h is not among the sources; `BIT_0` is the mask of
bit 0, which `HEARTBEAT_LED_TOGL` toggles on port B. -/
def BIT_0 : Nat := 0x01

/-- The three periods of the background tasks: 5 ms, 50 ms and 500 ms. -/
inductive Period where
  | p5ms
  | p50ms
  | p500ms
deriving DecidableEq, Repr

/-- The globals of the tick handler and of the scheduler: `ulClockTicks` and the three
request flags of periph.c, the static sub-dividers of `ISR ( TIMER1_COMPA_vect )`, the
statics of `update_LED_chaser`, and the I/O registers they use. `done` is not a program
variable: it records, in order, the periods whose housekeeping block has been executed. -/
structure Tasks where
  ulClockTicks : Nat
  b5mSecTimer : Nat
  b50mSecTimer : Nat
  b500msecTimer : Nat
  b5msecTaskReq : Bool
  b50mSecTaskReq : Bool
  b500msecTaskReq : Bool
  bLedChaser : Nat
  bAlt : Nat
  PORTB : Nat
  PORTC : Nat
  TIMSK1 : Nat
  done : List Period
deriving DecidableEq, Repr

/-- The handler `ISR ( TIMER1_COMPA_vect )` of periph.c. -/
def TIMER1_COMPA_vect (t : Tasks) : Tasks :=
  let t1 := { t with ulClockTicks := (t.ulClockTicks + 1) % 2 ^ 32
                     b5mSecTimer := (t.b5mSecTimer + 1) % 256 }
  let t2 := if t1.b5mSecTimer ≥ 5 then
      { t1 with b5msecTaskReq := true, b5mSecTimer := 0
                b50mSecTimer := (t1.b50mSecTimer + 1) % 256 }
    else t1
  let t3 := if t2.b50mSecTimer ≥ 10 then
      { t2 with b50mSecTaskReq := true, b50mSecTimer := 0
                b500msecTimer := (t2.b500msecTimer + 1) % 256 }
    else t2
  if t3.b500msecTimer ≥ 10 then
    { t3 with b500msecTaskReq := true, b500msecTimer := 0 }
  else t3

/-- The function `update_LED_chaser` of main.c. -/
def update_LED_chaser (t : Tasks) : Tasks :=
  let t1 := { t with bAlt := (t.bAlt + 1) % 256 }
  if t.bAlt &&& 1 = 0 then t1
  else
    let led := (t1.bLedChaser * 2) % 256
    { t1 with PORTC := (t1.PORTC &&& 0xC0) ||| (t1.bLedChaser &&& 0x3F)
              bLedChaser := if led = 0x40 then 0x1 else led }

/-- The function `doBackgroundTasks` of main.c. -/
def doBackgroundTasks (t : Tasks) : Tasks :=
  let t1 := if t.b5msecTaskReq then
      { t with done := t.done ++ [Period.p5ms], b5msecTaskReq := false }
    else t
  let t2 := if t1.b50mSecTaskReq then
      { update_LED_chaser { t1 with done := t1.done ++ [Period.p50ms] } with
        b50mSecTaskReq := false }
    else t1
  if t2.b500msecTaskReq then
    { t2 with PORTB := t2.PORTB ^^^ BIT_0, done := t2.done ++ [Period.p500ms]
              b500msecTaskReq := false }
  else t2

/-- One event of the foreground/interrupt interleaving: a tick interrupt, or one pass
of the scheduler. -/
inductive SchedEv where
  | tick
  | pass
deriving DecidableEq, Repr

/-- Runs one event. -/
def schedStep (t : Tasks) : SchedEv → Tasks
  | SchedEv.tick => TIMER1_COMPA_vect t
  | SchedEv.pass => doBackgroundTasks t

/-- Runs a sequence of events. -/
def schedRun (t : Tasks) (evs : List SchedEv) : Tasks :=
  evs.foldl schedStep t

/-- The number of tick interrupts in a sequence of events. -/
def ticksIn : List SchedEv → Nat
  | [] => 0
  | SchedEv.tick :: evs => ticksIn evs + 1
  | SchedEv.pass :: evs => ticksIn evs

/-- An invocation of the tick handler sets the 5 ms flag when, entered with the flag
clear, it leaves the flag set. -/
def setsFast (t : Tasks) : Bool :=
  (TIMER1_COMPA_vect { t with b5msecTaskReq := false }).b5msecTaskReq

/-- An invocation of the tick handler sets the 50 ms flag. -/
def setsMedium (t : Tasks) : Bool :=
  (TIMER1_COMPA_vect { t with b50mSecTaskReq := false }).b50mSecTaskReq

/-- An invocation of the tick handler sets the 500 ms flag. -/
def setsSlow (t : Tasks) : Bool :=
  (TIMER1_COMPA_vect { t with b500msecTaskReq := false }).b500msecTaskReq

/-- Counts, along a run of events, the tick invocations that satisfy `f` on entry. -/
def countTicks (f : Tasks → Bool) : Tasks → List SchedEv → Nat
  | _, [] => 0
  | t, SchedEv.tick :: evs => (if f t then 1 else 0) + countTicks f (TIMER1_COMPA_vect t) evs
  | t, SchedEv.pass :: evs => countTicks f (doBackgroundTasks t) evs

/-- State at reset: everything zero, the chaser pattern at its initialiser. -/
def tasksReset : Tasks :=
  { ulClockTicks := 0, b5mSecTimer := 0, b50mSecTimer := 0, b500msecTimer := 0
    b5msecTaskReq := false, b50mSecTaskReq := false, b500msecTaskReq := false
    bLedChaser := 0x01, bAlt := 0, PORTB := 0, PORTC := 0, TIMSK1 := 0, done := [] }

/-! ## cmnd.c : host command interface -/

/-- Modelled from the spec: gendef.h is not among the sources; `NUL` is the ASCII code 0
that ends a C string. -/
def NUL : Nat := 0

/-- Modelled from the spec: gendef.h is not among the sources; `SPACE` is the ASCII
space, the separator between the tokens of a command line. -/
def SPACE : Nat := 0x20

/-- Modelled from the spec: gendef.h is not among the sources; the spec gives the
cancel byte ESC as 0x1B. -/
def ESC : Nat := 0x1B

/-- Modelled from the spec: gendef.h is not among the sources; the spec gives the
cancel byte CAN as 0x18. -/
def CAN : Nat := 0x18

/-- The constant `CMD_MSG_SIZE` of cmnd.h. -/
def CMD_MSG_SIZE : Nat := 63

/-- The constant `BUILD_VER_MAJOR` of system.h. -/
def BUILD_VER_MAJOR : Nat := 1

/-- The constant `BUILD_VER_MINOR` of system.h. -/
def BUILD_VER_MINOR : Nat := 2

/-- The constant `BUILD_VER_DEBUG` of system.h. -/
def BUILD_VER_DEBUG : Nat := 20

/-- The bytes of a string literal. -/
def str (s : String) : List Nat :=
  s.toList.map Char.toNat

/-- The C library function `isprint` in the C locale: the codes 0x20 to 0x7E. -/
def isprint (c : Nat) : Bool :=
  decide (0x20 ≤ c) && decide (c ≤ 0x7E)

/-- The C library function `toupper` in the C locale. -/
def toupper (c : Nat) : Nat :=
  if 0x61 ≤ c ∧ c ≤ 0x7A then c - 0x20 else c

/-- The command functions of cmnd.c, as the values a `pfnvoid` of the command table can
hold. -/
inductive pfnvoid where
  | default_params_cmd
  | list_cmd
  | interactive_cmd
  | version_cmd
  | watch_data_cmd
  | show_errors_cmd
  | show_flags_cmd
  | reset_MCU_cmd
  | dump_memory_cmd
  | read_data_mem_cmd
  | write_data_mem_cmd
  | input_IOreg_cmd
  | output_IOreg_cmd
  | erase_eeprom_cmd
  | null_cmd
deriving DecidableEq, Repr

/-- The struct `CmndTableEntry_t` of cmnd.c. -/
structure CmndTableEntry_t where
  cName1 : Nat
  cName2 : Nat
  Function : pfnvoid
deriving DecidableEq, Repr

/-- The command table `asCommand` of cmnd.c. -/
def asCommand : List CmndTableEntry_t :=
  [ ⟨0x44, 0x50, pfnvoid.default_params_cmd⟩,   -- 'D','P'
    ⟨0x4C, 0x53, pfnvoid.list_cmd⟩,             -- 'L','S'
    ⟨0x49, 0x4D, pfnvoid.interactive_cmd⟩,      -- 'I','M'
    ⟨0x56, 0x4E, pfnvoid.version_cmd⟩,          -- 'V','N'
    ⟨0x57, 0x44, pfnvoid.watch_data_cmd⟩,       -- 'W','D'
    ⟨0x53, 0x45, pfnvoid.show_errors_cmd⟩,      -- 'S','E'
    ⟨0x53, 0x46, pfnvoid.show_flags_cmd⟩,       -- 'S','F'
    ⟨0x52, 0x53, pfnvoid.reset_MCU_cmd⟩,        -- 'R','S'
    ⟨0x44, 0x43, pfnvoid.dump_memory_cmd⟩,      -- 'D','C'
    ⟨0x44, 0x44, pfnvoid.dump_memory_cmd⟩,      -- 'D','D'
    ⟨0x44, 0x45, pfnvoid.dump_memory_cmd⟩,      -- 'D','E'
    ⟨0x52, 0x4D, pfnvoid.read_data_mem_cmd⟩,    -- 'R','M'
    ⟨0x57, 0x4D, pfnvoid.write_data_mem_cmd⟩,   -- 'W','M'
    ⟨0x49, 0x50, pfnvoid.input_IOreg_cmd⟩,      -- 'I','P'
    ⟨0x4F, 0x50, pfnvoid.output_IOreg_cmd⟩,     -- 'O','P'
    ⟨0x45, 0x45, pfnvoid.erase_eeprom_cmd⟩,     -- 'E','E'
    ⟨0x24, 0x24, pfnvoid.null_cmd⟩ ]            -- '$','$' : last entry in cmd table

/-- The data addresses of the variables that the model holds as fields of their own:
for each variable the address of its first byte. The sources do not fix these addresses,
the linker does; they come with the state and no function changes them. -/
structure Layout where
  gacCmdMsg : Nat
  pcCmdPtr : Nat
  cRespCode : Nat
  yInteractive : Nat
  uwStartAddr : Nat
  gwDebugFlags : Nat
  gwSystemError : Nat
  bLedChaser : Nat
  bAlt : Nat
  b5msecTaskReq : Nat
  b50mSecTaskReq : Nat
  b500msecTaskReq : Nat
  b5mSecTimer : Nat
  b50mSecTimer : Nat
  b500msecTimer : Nat
  ulClockTicks : Nat
deriving DecidableEq, Repr

/-- One byte of the data space that the model holds in a field of its own: an I/O
register, or byte `k` (0 the low one) of a variable, or element `i` of `gacCmdMsg`. -/
inductive Cell where
  | PORTB
  | PORTC
  | TIMSK1
  | gacCmdMsg (i : Nat)
  | pcCmdPtr (k : Nat)
  | cRespCode
  | yInteractive
  | uwStartAddr (k : Nat)
  | gwDebugFlags (k : Nat)
  | gwSystemError (k : Nat)
  | bLedChaser
  | bAlt
  | b5msecTaskReq
  | b50mSecTaskReq
  | b500msecTaskReq
  | b5mSecTimer
  | b50mSecTimer
  | b500msecTimer
  | ulClockTicks (k : Nat)
deriving DecidableEq, Repr

/-- The globals of cmnd.c with what the command functions reach: the two flag words of
main.c, the static `uwStartAddr` of `dump_memory_cmd`, the data space and the program
space `flash` read and written through computed addresses, and the scheduler state.
`pcCmdPtr` is the offset of the pointer from `gacCmdMsg`. The variables above, those of
`tasks` and the I/O registers of `tasks` are bytes of the data space too: `layout` tells
where they lie, and `sram` holds the bytes of the data space that belong to none of them.
Three fields are observations, not program variables: `tx` lists the bytes written to
the UART by `putch`, `calls` lists the command functions invoked through the table, and
`bgCalls` counts the calls of `doBackgroundTasks` made by the output routines. -/
structure Hci where
  gacCmdMsg : List Nat
  pcCmdPtr : Nat
  cRespCode : Nat
  yInteractive : Bool
  gwDebugFlags : Nat
  gwSystemError : Nat
  uwStartAddr : Nat
  layout : Layout
  sram : Nat → Nat
  flash : Nat → Nat
  tasks : Tasks
  tx : List Nat
  calls : List pfnvoid
  bgCalls : Nat

/-- How a call ends: control comes back to the caller, or it never does (the program is
restarted, or a loop goes on); either way with the state reached. -/
inductive Outcome where
  | ret (h : Hci)
  | noReturn (h : Hci)

/-- The state carried by an outcome. -/
def Outcome.st : Outcome → Hci
  | Outcome.ret h => h
  | Outcome.noReturn h => h

/-- Sequencing: what follows a call runs only when the call returns. -/
def Outcome.andThen : Outcome → (Hci → Outcome) → Outcome
  | Outcome.ret h, f => f h
  | Outcome.noReturn h, _ => Outcome.noReturn h

/-- One run of `watch_data_cmd` as seen from the command interface: whether it comes
back, the bytes it sent, the scheduler state it leaves and the number of scheduler
passes it made. -/
structure WatchRun where
  returns : Bool
  sent : List Nat
  tasks : Tasks
  bgCalls : Nat

/-- What the build and the interrupts decide: the text of `__DATE__`, and the course of
the loop of `watch_data_cmd`, which is driven by the tick counter and by the bytes that
the receive interrupt delivers while the function runs. -/
structure Env where
  date : List Nat
  watch : Hci → WatchRun

/-- The function `putch` of periph.c; the wait for `UART_TX_READY` is taken to end. -/
def putch (b : Nat) (h : Hci) : Hci :=
  { h with tx := h.tx ++ [b] }

/-- The macro `NEW_LINE` of cmnd.h. -/
def NEW_LINE (h : Hci) : Hci :=
  putch 0x0A (putch 0x0D h)

/-- The call of `doBackgroundTasks` from an output routine. -/
def callBackgroundTasks (h : Hci) : Hci :=
  { h with tasks := doBackgroundTasks h.tasks, bgCalls := h.bgCalls + 1 }

/-- The loop of `putstr` and `putstr_P` over the characters before the terminating NUL. -/
def putstrLoop : List Nat → Hci → Hci
  | [], h => h
  | c :: cs, h =>
    if c = NUL then h
    else if c = 0x0A then putstrLoop cs (putch 0x0A (putch 0x0D h))
    else putstrLoop cs (putch c h)

/-- The function `putstr` of cmnd.c; the argument is the string without its final NUL. -/
def putstr (s : List Nat) (h : Hci) : Hci :=
  callBackgroundTasks (putstrLoop s h)

/-- The function `putstr_P` of cmnd.c. -/
def putstr_P (s : List Nat) (h : Hci) : Hci :=
  callBackgroundTasks (putstrLoop s h)

/-- The function `putBoolean` of cmnd.c. -/
def putBoolean (b : Bool) (h : Hci) : Hci :=
  if b then putch 0x31 h else putch 0x30 h

/-- The function `putHexDigit` of cmnd.c. -/
def putHexDigit (d : Nat) (h : Hci) : Hci :=
  if d % 16 < 10 then putch (0x30 + d % 16) h else putch (0x41 + d % 16 - 10) h

/-- The function `putHexByte` of cmnd.c. -/
def putHexByte (b : Nat) (h : Hci) : Hci :=
  putHexDigit b (putHexDigit (b / 16) h)

/-- The function `putHexWord` of cmnd.c. -/
def putHexWord (uwArg1 : Nat) (h : Hci) : Hci :=
  putHexDigit ((uwArg1 % 16) % 256) (putHexDigit ((uwArg1 / 16) % 256)
    (putHexDigit ((uwArg1 / 256) % 256) (putHexDigit ((uwArg1 / 4096) % 256) h)))

/-- The BCD array `aubDigit` that the first loop of `putDecWord` fills. -/
def decDigits (uwArg1 : Nat) : List Nat :=
  [uwArg1 / 10000 % 10, uwArg1 / 1000 % 10, uwArg1 / 100 % 10, uwArg1 / 10 % 10, uwArg1 % 10]

/-- The function `putDecWord` of cmnd.c. -/
def putDecWord (uwArg1 ubPlaces : Nat) (h : Hci) : Hci :=
  let places := if ubPlaces > 5 then 5 else ubPlaces
  ((decDigits uwArg1).drop (5 - places)).foldl (fun s d => putHexDigit d s) h

/-- The loop of `put_word_bits`, from the mask `2 ^ k` down to the mask 1. -/
def put_word_bits_from (wArg : Nat) : Nat → Hci → Hci
  | 0, h => h
  | k + 1, h =>
    let h1 := putch SPACE (putch (if wArg / 2 ^ k % 2 = 1 then 0x31 else 0x30) h)
    let h2 := if 2 ^ k = 0x0100 then putch SPACE (putch SPACE h1) else h1
    put_word_bits_from wArg k h2

/-- The function `put_word_bits` of cmnd.c. -/
def put_word_bits (wArg : Nat) (h : Hci) : Hci :=
  put_word_bits_from wArg 16 h

/-- The function `hexctobin` of cmnd.c. -/
def hexctobin (c : Nat) : Nat :=
  if 0x30 ≤ c ∧ c ≤ 0x39 then c - 0x30
  else if 0x41 ≤ c ∧ c ≤ 0x46 then c - 0x41 + 10
  else if 0x61 ≤ c ∧ c ≤ 0x66 then c - 0x61 + 10
  else 0xFF

/-- The loop of `hexatoi`: `k` characters still to read from `s`, `uwResult` so far. -/
def hexatoiLoop : Nat → List Nat → Nat → Nat
  | 0, _, uwResult => uwResult
  | k + 1, s, uwResult =>
    if hexctobin (s.headD NUL) = 0xFF then uwResult
    else hexatoiLoop k s.tail ((16 * uwResult + hexctobin (s.headD NUL)) % 65536)

/-- The function `hexatoi` of cmnd.c; the argument lists the bytes from the pointer on. -/
def hexatoi (s : List Nat) : Nat :=
  hexatoiLoop 4 s 0

/-- The function `isHexDigit` of cmnd.c. -/
def isHexDigit (c : Nat) : Bool :=
  if hexctobin c = 0xFF then false else true

/-- The function `eeprom_read_byte` of periph.c. -/
def eeprom_read_byte (_uwAddr : Nat) : Nat := 0xFF

/-- The byte `gacCmdMsg[i]`. -/
def Hci.msg (h : Hci) (i : Nat) : Nat :=
  h.gacCmdMsg.getD i NUL

/-- The function `hci_clear_command` of cmnd.c. -/
def hci_clear_command (h : Hci) : Hci :=
  { h with
    gacCmdMsg := (List.range (CMD_MSG_SIZE + 1)).foldl (fun a ubx => a.set ubx NUL) h.gacCmdMsg
    pcCmdPtr := 0
    cRespCode := if h.yInteractive then 0x3D else 0x2D }

/-- The function `hci_init` of cmnd.c, with `INTERACTIVE_ON_STARTUP` TRUE as in system.h. -/
def hci_init (h : Hci) : Hci :=
  hci_clear_command { h with yInteractive := true }

/-- The function `hci_put_resp_term` of cmnd.c. -/
def hci_put_resp_term (h : Hci) : Hci :=
  let h1 := putch h.cRespCode (putch 0x0A (putch 0x0D h))
  if h1.yInteractive then putch 0x3E h1 else h1

/-- The function `hci_put_cmd_error` of cmnd.c. -/
def hci_put_cmd_error (h : Hci) : Hci :=
  let h1 := { h with cRespCode := 0x21 }
  if h1.yInteractive then putstr (str "\n! Command Error") h1 else h1

/-- The function `null_cmd` of cmnd.c. -/
def null_cmd (h : Hci) : Hci := h

/-- The function `list_cmd` of cmnd.c, with the sixteen help strings in its order. -/
def list_cmd (h : Hci) : Hci :=
  [ str "DP        | Default Params\n", str "LS        | List Command Set\n",
    str "IM x      | Interactive Mode\n", str "VN        | Show Version\n",
    str "SE        | Show Errors\n", str "SF        | Show Flags\n",
    str "RS        | Reset System\n", str "WD        | Watch Data\n",
    str "DC [aaaa] | Dump Code mem\n", str "DD [aaaa] | Dump Data mem\n",
    str "DE pp     | Dump EEPROM page\n", str "EE pp     | Erase EEPROM page\n",
    str "RM aaa    | Read Memory byte\n", str "WM aaa bb | Write Memory byte\n",
    str "IP rr     | Input I/O reg\n", str "OP rr bb  | Output I/O reg\n" ].foldl
    (fun s help => putstr_P help s) h

/-- The function `interactive_cmd` of cmnd.c. -/
def interactive_cmd (h : Hci) : Hci :=
  let c := h.msg 3
  hci_clear_command
    { h with yInteractive := if c = 0x31 ∨ c = 0x59 ∨ c = 0x79 then true else false }

/-- The function `watch_data_cmd` of cmnd.c. Its loop is driven by the interrupts, so
its course is taken from the environment; the function writes the UART and, through
`doBackgroundTasks`, the scheduler state, and no variable of the command interface. -/
def watch_data_cmd (env : Env) (h : Hci) : Outcome :=
  let w := env.watch h
  let h1 := { h with tx := h.tx ++ w.sent, tasks := w.tasks, bgCalls := h.bgCalls + w.bgCalls }
  if w.returns then Outcome.ret h1 else Outcome.noReturn h1

/-- The function `default_params_cmd` of cmnd.c. -/
def default_params_cmd (h : Hci) : Hci := h

/-- The function `show_errors_cmd` of cmnd.c. -/
def show_errors_cmd (h : Hci) : Hci :=
  { put_word_bits h.gwSystemError h with gwSystemError := 0 }

/-- The function `show_flags_cmd` of cmnd.c. -/
def show_flags_cmd (h : Hci) : Hci :=
  { put_word_bits h.gwDebugFlags h with gwDebugFlags := 0 }

/-- The function `version_cmd` of cmnd.c. -/
def version_cmd (env : Env) (h : Hci) : Hci :=
  let h1 := putDecWord BUILD_VER_DEBUG 3 (putch 0x2E (putDecWord BUILD_VER_MINOR 1
    (putch 0x2E (putDecWord BUILD_VER_MAJOR 1 (putch 0x56 h)))))
  if h1.yInteractive then
    let h2 := putstr env.date (putstr (str " MJB ") h1)
    if h2.yInteractive then NEW_LINE h2 else h2
  else h1

/-- The function `reset_MCU_cmd` of cmnd.c, `WATCHDOG_SUPPORTED` not being defined: the
jump to address 0 restarts the program and control never comes back to the caller. -/
def reset_MCU_cmd (h : Hci) : Outcome :=
  Outcome.noReturn h

/-- The byte of the model, if any, that lies at the data address `a`. The I/O registers
have the data addresses that avr/io.h gives them for the ATmega328P (PORTB 0x25, PORTC
0x28, TIMSK1 0x6F); the variables lie where the layout says. -/
def cellAt (m : Layout) (a : Nat) : Option Cell :=
  if a = 0x25 then some Cell.PORTB
  else if a = 0x28 then some Cell.PORTC
  else if a = 0x6F then some Cell.TIMSK1
  else if m.gacCmdMsg ≤ a ∧ a < m.gacCmdMsg + (CMD_MSG_SIZE + 1) then
    some (Cell.gacCmdMsg (a - m.gacCmdMsg))
  else if m.pcCmdPtr ≤ a ∧ a < m.pcCmdPtr + 2 then some (Cell.pcCmdPtr (a - m.pcCmdPtr))
  else if a = m.cRespCode then some Cell.cRespCode
  else if a = m.yInteractive then some Cell.yInteractive
  else if m.uwStartAddr ≤ a ∧ a < m.uwStartAddr + 2 then
    some (Cell.uwStartAddr (a - m.uwStartAddr))
  else if m.gwDebugFlags ≤ a ∧ a < m.gwDebugFlags + 2 then
    some (Cell.gwDebugFlags (a - m.gwDebugFlags))
  else if m.gwSystemError ≤ a ∧ a < m.gwSystemError + 2 then
    some (Cell.gwSystemError (a - m.gwSystemError))
  else if a = m.bLedChaser then some Cell.bLedChaser
  else if a = m.bAlt then some Cell.bAlt
  else if a = m.b5msecTaskReq then some Cell.b5msecTaskReq
  else if a = m.b50mSecTaskReq then some Cell.b50mSecTaskReq
  else if a = m.b500msecTaskReq then some Cell.b500msecTaskReq
  else if a = m.b5mSecTimer then some Cell.b5mSecTimer
  else if a = m.b50mSecTimer then some Cell.b50mSecTimer
  else if a = m.b500msecTimer then some Cell.b500msecTimer
  else if m.ulClockTicks ≤ a ∧ a < m.ulClockTicks + 4 then
    some (Cell.ulClockTicks (a - m.ulClockTicks))
  else none

/-- Byte `k` of the little-endian number `x`. -/
def getByte (k x : Nat) : Nat :=
  x / 256 ^ k % 256

/-- The number `x` with its byte `k` replaced by `v`. -/
def setByte (k v x : Nat) : Nat :=
  x - getByte k x * 256 ^ k + v * 256 ^ k

/-- The read `*(uint8 *) a` of the data space. Of a flag of type `bool` the model keeps
the truth value, so that the flag reads as 1 or 0, the bytes that the program itself
stores into it; `pcCmdPtr` reads as the address it holds, the address of `gacCmdMsg`
plus the offset. -/
def peek (a : Nat) (h : Hci) : Nat :=
  match cellAt h.layout a with
  | none => h.sram a
  | some Cell.PORTB => h.tasks.PORTB
  | some Cell.PORTC => h.tasks.PORTC
  | some Cell.TIMSK1 => h.tasks.TIMSK1
  | some (Cell.gacCmdMsg i) => h.gacCmdMsg.getD i NUL
  | some (Cell.pcCmdPtr k) => getByte k ((h.layout.gacCmdMsg + h.pcCmdPtr) % 65536)
  | some Cell.cRespCode => h.cRespCode
  | some Cell.yInteractive => if h.yInteractive then 1 else 0
  | some (Cell.uwStartAddr k) => getByte k h.uwStartAddr
  | some (Cell.gwDebugFlags k) => getByte k h.gwDebugFlags
  | some (Cell.gwSystemError k) => getByte k h.gwSystemError
  | some Cell.bLedChaser => h.tasks.bLedChaser
  | some Cell.bAlt => h.tasks.bAlt
  | some Cell.b5msecTaskReq => if h.tasks.b5msecTaskReq then 1 else 0
  | some Cell.b50mSecTaskReq => if h.tasks.b50mSecTaskReq then 1 else 0
  | some Cell.b500msecTaskReq => if h.tasks.b500msecTaskReq then 1 else 0
  | some Cell.b5mSecTimer => h.tasks.b5mSecTimer
  | some Cell.b50mSecTimer => h.tasks.b50mSecTimer
  | some Cell.b500msecTimer => h.tasks.b500msecTimer
  | some (Cell.ulClockTicks k) => getByte k h.tasks.ulClockTicks

/-- The store `*(uint8 *) a = v` into the data space, `v` being a byte: it changes the
variable or register that lies at `a`, and a byte of `sram` when none does. A flag of
type `bool` becomes true when the byte stored is not 0. A store into `pcCmdPtr` changes
the address held; the new offset from `gacCmdMsg` is taken modulo 2 ^ 16, as the pointer
is 16 bits wide. The stack, the variables of the receive FIFO and the registers that the
model does not hold are bytes of `sram`: what a store into them does to the run of the
program is not followed. -/
def poke (a v : Nat) (h : Hci) : Hci :=
  match cellAt h.layout a with
  | none => { h with sram := Function.update h.sram a v }
  | some Cell.PORTB => { h with tasks := { h.tasks with PORTB := v } }
  | some Cell.PORTC => { h with tasks := { h.tasks with PORTC := v } }
  | some Cell.TIMSK1 => { h with tasks := { h.tasks with TIMSK1 := v } }
  | some (Cell.gacCmdMsg i) => { h with gacCmdMsg := h.gacCmdMsg.set i v }
  | some (Cell.pcCmdPtr k) =>
    { h with pcCmdPtr :=
        (setByte k v ((h.layout.gacCmdMsg + h.pcCmdPtr) % 65536) + 65536
          - h.layout.gacCmdMsg % 65536) % 65536 }
  | some Cell.cRespCode => { h with cRespCode := v }
  | some Cell.yInteractive => { h with yInteractive := v != 0 }
  | some (Cell.uwStartAddr k) => { h with uwStartAddr := setByte k v h.uwStartAddr }
  | some (Cell.gwDebugFlags k) => { h with gwDebugFlags := setByte k v h.gwDebugFlags }
  | some (Cell.gwSystemError k) => { h with gwSystemError := setByte k v h.gwSystemError }
  | some Cell.bLedChaser => { h with tasks := { h.tasks with bLedChaser := v } }
  | some Cell.bAlt => { h with tasks := { h.tasks with bAlt := v } }
  | some Cell.b5msecTaskReq => { h with tasks := { h.tasks with b5msecTaskReq := v != 0 } }
  | some Cell.b50mSecTaskReq => { h with tasks := { h.tasks with b50mSecTaskReq := v != 0 } }
  | some Cell.b500msecTaskReq => { h with tasks := { h.tasks with b500msecTaskReq := v != 0 } }
  | some Cell.b5mSecTimer => { h with tasks := { h.tasks with b5mSecTimer := v } }
  | some Cell.b50mSecTimer => { h with tasks := { h.tasks with b50mSecTimer := v } }
  | some Cell.b500msecTimer => { h with tasks := { h.tasks with b500msecTimer := v } }
  | some (Cell.ulClockTicks k) =>
    { h with tasks := { h.tasks with ulClockTicks := setByte k v h.tasks.ulClockTicks } }

/-- The byte that `dump_memory_cmd` reads at `uwAddr` in the space chosen by `c2`. -/
def dumpRead (c2 uwAddr : Nat) (h : Hci) : Nat :=
  if c2 = 0x45 then eeprom_read_byte uwAddr
  else if c2 = 0x43 then h.flash uwAddr
  else peek uwAddr h

/-- The first inner loop of `dump_memory_cmd`: columns `ubCol` to 15 in hex. -/
def dumpHexCols (c2 : Nat) : Nat → Nat → Nat → Hci → Nat × Hci
  | 0, _, uwAddr, h => (uwAddr, h)
  | k + 1, ubCol, uwAddr, h =>
    let h1 := putch SPACE h
    let h2 := if ubCol = 8 then putch SPACE h1 else h1
    dumpHexCols c2 k (ubCol + 1) ((uwAddr + 1) % 65536) (putHexByte (dumpRead c2 uwAddr h2) h2)

/-- The second inner loop of `dump_memory_cmd`: the same bytes as characters. -/
def dumpAsciiCols (c2 : Nat) : Nat → Nat → Hci → Nat × Hci
  | 0, uwAddr, h => (uwAddr, h)
  | k + 1, uwAddr, h =>
    let ubDat := dumpRead c2 uwAddr h
    dumpAsciiCols c2 k ((uwAddr + 1) % 65536)
      (if ubDat ≥ 32 ∧ ubDat < 127 then putch ubDat h else putch SPACE h)

/-- The row loop of `dump_memory_cmd`. -/
def dumpRows (c2 : Nat) : Nat → Nat → Hci → Nat × Hci
  | 0, uwAddr, h => (uwAddr, h)
  | k + 1, uwAddr, h =>
    let p := dumpHexCols c2 16 0 uwAddr (putch SPACE (putHexWord uwAddr h))
    let q := dumpAsciiCols c2 16 ((p.1 + 65536 - 16) % 65536) (putch SPACE (putch SPACE p.2))
    dumpRows c2 k q.1 (NEW_LINE q.2)

/-- The function `dump_memory_cmd` of cmnd.c. -/
def dump_memory_cmd (h : Hci) : Hci :=
  let c2 := toupper (h.msg 1)
  let uwArgValue := hexatoi (h.gacCmdMsg.drop 3)
  if c2 = 0x45 then hci_put_cmd_error h
  else
    let h1 := if isHexDigit (h.msg 3) then { h with uwStartAddr := uwArgValue / 16 * 16 } else h
    let q := dumpRows c2 16 h1.uwStartAddr h1
    if c2 ≠ 0x45 then { q.2 with uwStartAddr := (q.2.uwStartAddr + 256) % 65536 } else q.2

/-- The function `read_data_mem_cmd` of cmnd.c. -/
def read_data_mem_cmd (h : Hci) : Hci :=
  let h1 := if h.yInteractive then putch SPACE h else h
  putHexByte (peek (hexatoi (h1.gacCmdMsg.drop 3)) h1) h1

/-- The function `write_data_mem_cmd` of cmnd.c. -/
def write_data_mem_cmd (h : Hci) : Hci :=
  if !isHexDigit (h.msg 3) || !isHexDigit (h.msg 4) || !isHexDigit (h.msg 5)
      || h.msg 6 != SPACE || !isHexDigit (h.msg 7) || !isHexDigit (h.msg 8) then
    hci_put_cmd_error h
  else
    poke (hexatoi (h.gacCmdMsg.drop 3)) (hexatoi (h.gacCmdMsg.drop 7) % 256) h

/-- The function `input_IOreg_cmd` of cmnd.c. -/
def input_IOreg_cmd (h : Hci) : Hci :=
  let h1 := if h.yInteractive then putch SPACE h else h
  putHexByte (peek ((hexatoi (h1.gacCmdMsg.drop 3) + 0x20) % 65536) h1) h1

/-- The function `output_IOreg_cmd` of cmnd.c. -/
def output_IOreg_cmd (h : Hci) : Hci :=
  if !isHexDigit (h.msg 3) || !isHexDigit (h.msg 4) || h.msg 5 != SPACE
      || !isHexDigit (h.msg 6) || !isHexDigit (h.msg 7) then
    hci_put_cmd_error h
  else
    poke ((hexatoi (h.gacCmdMsg.drop 3) + 0x20) % 65536) (hexatoi (h.gacCmdMsg.drop 6) % 256) h

/-- The function `erase_eeprom_cmd` of cmnd.c. -/
def erase_eeprom_cmd (h : Hci) : Hci :=
  { h with cRespCode := 0x21 }

/-- The call `(*asCommand[n].Function)()`: the command function a table entry points to. -/
def callFunction (env : Env) : pfnvoid → Hci → Outcome
  | pfnvoid.default_params_cmd, h => Outcome.ret (default_params_cmd h)
  | pfnvoid.list_cmd, h => Outcome.ret (list_cmd h)
  | pfnvoid.interactive_cmd, h => Outcome.ret (interactive_cmd h)
  | pfnvoid.version_cmd, h => Outcome.ret (version_cmd env h)
  | pfnvoid.watch_data_cmd, h => watch_data_cmd env h
  | pfnvoid.show_errors_cmd, h => Outcome.ret (show_errors_cmd h)
  | pfnvoid.show_flags_cmd, h => Outcome.ret (show_flags_cmd h)
  | pfnvoid.reset_MCU_cmd, h => reset_MCU_cmd h
  | pfnvoid.dump_memory_cmd, h => Outcome.ret (dump_memory_cmd h)
  | pfnvoid.read_data_mem_cmd, h => Outcome.ret (read_data_mem_cmd h)
  | pfnvoid.write_data_mem_cmd, h => Outcome.ret (write_data_mem_cmd h)
  | pfnvoid.input_IOreg_cmd, h => Outcome.ret (input_IOreg_cmd h)
  | pfnvoid.output_IOreg_cmd, h => Outcome.ret (output_IOreg_cmd h)
  | pfnvoid.erase_eeprom_cmd, h => Outcome.ret (erase_eeprom_cmd h)
  | pfnvoid.null_cmd, h => Outcome.ret (null_cmd h)

/-- The entry `asCommand[n]`; an index outside the table, which the scan does not
reach, reads as the last entry. -/
def asCommandAt (n : Nat) : CmndTableEntry_t :=
  asCommand.getD n ⟨0x24, 0x24, pfnvoid.null_cmd⟩

/-- The table scan of `hci_exec_command`: the `for` loop entered at index `n` with
`k` = 250 - n iterations left; the result is the index at which the loop is left and
the flag `yFoundCndName`. -/
def hci_exec_scan (c1 c2 : Nat) : Nat → Nat → Nat × Bool
  | 0, n => (n, false)
  | k + 1, n =>
    if (asCommandAt n).cName1 = 0x24 then (n, false)
    else if (asCommandAt n).cName1 = c1 ∧ (asCommandAt n).cName2 = c2 then (n, true)
    else hci_exec_scan c1 c2 k (n + 1)

/-- The first part of `hci_exec_command` (cmnd.c lines 151-176): the scan of the table,
then the command function, or `hci_put_cmd_error` when the name is not found. -/
def hci_exec_dispatch (env : Env) (h : Hci) : Outcome :=
  let c1 := toupper (h.msg 0)
  let c2 := toupper (h.msg 1)
  let s := hci_exec_scan c1 c2 250 0
  if s.2 then
    let h1 := if h.yInteractive then NEW_LINE h else h
    callFunction env (asCommandAt s.1).Function
      { h1 with calls := h1.calls ++ [(asCommandAt s.1).Function] }
  else Outcome.ret (hci_put_cmd_error h)

/-- The function `hci_exec_command` of cmnd.c. -/
def hci_exec_command (env : Env) (h : Hci) : Outcome :=
  (hci_exec_dispatch env h).andThen
    (fun h1 => Outcome.ret (hci_clear_command (hci_put_resp_term h1)))

/-- The function `hci_process_input` of cmnd.c. -/
def hci_process_input (env : Env) (c : Nat) (h : Hci) : Outcome :=
  if c = 0x0D then
    if h.pcCmdPtr ≠ 0 then hci_exec_command env h
    else Outcome.ret (hci_put_resp_term h)
  else if isprint c then
    let h1 := if h.pcCmdPtr < CMD_MSG_SIZE then
        { h with gacCmdMsg := h.gacCmdMsg.set h.pcCmdPtr c, pcCmdPtr := h.pcCmdPtr + 1 }
      else h
    Outcome.ret (if h1.yInteractive then putch c h1 else h1)
  else if c = ESC ∨ c = CAN then
    Outcome.ret (hci_put_resp_term (hci_clear_command h))
  else Outcome.ret h

/-- Feeds a sequence of input bytes to `hci_process_input`, one call per byte, for as
long as the calls return. -/
def hci_feed (env : Env) : List Nat → Hci → Outcome
  | [], h => Outcome.ret h
  | c :: cs, h => (hci_process_input env c h).andThen (hci_feed env cs)

/-- The variables of the command interface proper, with the record of invoked command
functions: what the output routines leave untouched. -/
def Hci.core (h : Hci) : List Nat × Nat × Nat × Bool × List pfnvoid :=
  (h.gacCmdMsg, h.pcCmdPtr, h.cRespCode, h.yInteractive, h.calls)

/-- The normal response code of a mode: the character = when interactive, - when not. -/
def normalCode (yInteractive : Bool) : Nat :=
  if yInteractive then 0x3D else 0x2D

/-- IDLE: the command line is empty, the cursor being at the start of the 64-byte
command buffer. -/
def HciIdle (h : Hci) : Prop :=
  h.pcCmdPtr = 0 ∧ h.gacCmdMsg.length = CMD_MSG_SIZE + 1

/-- The states in which `hci_put_resp_term` can be entered in a run that starts with
`hci_init` and goes on through calls of `hci_process_input`: the state after `hci_init`,
the state after each call that returns, and, inside a call, the state after
`hci_clear_command` on a cancel byte and the state after the first part of
`hci_exec_command`. -/
inductive HciReach (env : Env) : Hci → Prop where
  | init (h0 : Hci) : HciReach env (hci_init h0)
  | input (h : Hci) (c : Nat) (h1 : Hci) :
      HciReach env h → hci_process_input env c h = Outcome.ret h1 → HciReach env h1
  | cleared (h : Hci) : HciReach env h → HciReach env (hci_clear_command h)
  | dispatched (h h1 : Hci) :
      HciReach env h → h.pcCmdPtr ≠ 0 → hci_exec_dispatch env h = Outcome.ret h1 →
      HciReach env h1

/-- A layout with the variables in the upper part of the internal SRAM: the command
buffer at 0x880, `cRespCode` at 0x8C8, `yInteractive` at 0x8C9. -/
def layoutDemo : Layout :=
  { gacCmdMsg := 0x880, pcCmdPtr := 0x8C0, uwStartAddr := 0x8C2, gwDebugFlags := 0x8C4
    gwSystemError := 0x8C6, cRespCode := 0x8C8, yInteractive := 0x8C9, bLedChaser := 0x8CA
    bAlt := 0x8CB, b5msecTaskReq := 0x8CC, b50mSecTaskReq := 0x8CD, b500msecTaskReq := 0x8CE
    b5mSecTimer := 0x8CF, b50mSecTimer := 0x8D0, b500msecTimer := 0x8D1
    ulClockTicks := 0x8D4 }

/-- A state of the command interface at power-up: buffer of 64 NUL bytes, everything
else zero, non-interactive, the variables placed as in `layoutDemo`. -/
def hciDemo : Hci :=
  { gacCmdMsg := List.replicate 64 0, pcCmdPtr := 0, cRespCode := 0x2D, yInteractive := false
    gwDebugFlags := 0, gwSystemError := 0, uwStartAddr := 0, layout := layoutDemo
    sram := fun _ => 0, flash := fun _ => 0
    tasks := tasksReset, tx := [], calls := [], bgCalls := 0 }

/-- An environment in which `watch_data_cmd` comes back at once, built on 1 Jan 2021. -/
def envDemo : Env :=
  { date := str "Jan 01 2021", watch := fun h => ⟨true, [], h.tasks, 0⟩ }

/-- Some entry of `asCommand` before the last one carries the two name characters
`c1`, `c2`. -/
def matchesEntry (c1 c2 : Nat) : Bool :=
  (asCommand.take 16).any (fun e => e.cName1 == c1 && e.cName2 == c2)

/-- A sequence of 49 tick interrupts with a scheduler pass after the 5th and after the
last one. -/
def schedDemo : List SchedEv :=
  List.replicate 5 SchedEv.tick ++ [SchedEv.pass] ++ List.replicate 44 SchedEv.tick ++
    [SchedEv.pass]

/-- An interactive state in the middle of a line: `VN 1` typed, cursor at offset 4. -/
def hciMidLine : Hci :=
  { hciDemo with
    gacCmdMsg := str "VN 1" ++ List.replicate 60 0, pcCmdPtr := 4
    cRespCode := 0x3D, yInteractive := true }

/-- A non-interactive state holding the line `ZZ`, which names no command. -/
def hciUnknown : Hci :=
  { hciDemo with gacCmdMsg := str "ZZ" ++ List.replicate 62 0, pcCmdPtr := 2 }

/-- The sub-dividers after `k` tick interrupts from zero. -/
def DivAt (k : Nat) (t : Tasks) : Prop :=
  t.b5mSecTimer = k % 5 ∧ t.b50mSecTimer = (k / 5) % 10 ∧ t.b500msecTimer = (k / 50) % 10

/-- The bytes of the response terminator that `hci_put_resp_term` sends in state `h`. -/
def respTerm (h : Hci) : List Nat :=
  [0x0D, 0x0A, h.cRespCode] ++ (if h.yInteractive then [0x3E] else [])

/-- The idle state as `hci_clear_command` leaves it: cursor at the start of a command
buffer of 64 NUL bytes. -/
def HciCleared (h : Hci) : Prop :=
  h.pcCmdPtr = 0 ∧ h.gacCmdMsg = List.replicate (CMD_MSG_SIZE + 1) NUL

/-- An interactive state whose command line is full: 63 letters A typed, cursor at
offset 63. -/
def hciFullLine : Hci :=
  { hciDemo with
    gacCmdMsg := List.replicate 63 0x41 ++ [0], pcCmdPtr := 63
    cRespCode := 0x3D, yInteractive := true }

/-- A non-interactive state holding the line `IM 1`, cursor at offset 4. -/
def hciModeLine : Hci :=
  { hciDemo with gacCmdMsg := str "IM 1" ++ List.replicate 60 0, pcCmdPtr := 4 }

/-- A non-interactive state holding the line `vn`. -/
def hciLowerLine : Hci :=
  { hciDemo with gacCmdMsg := str "vn" ++ List.replicate 62 0, pcCmdPtr := 2 }

/-- An interactive state holding the line `VN 123`. -/
def hciUpperLine : Hci :=
  { hciDemo with
    gacCmdMsg := str "VN 123" ++ List.replicate 58 0, pcCmdPtr := 6
    cRespCode := 0x3D, yInteractive := true }

/-- A non-interactive state holding the line `EE 01`, whose command function reports an
error. -/
def hciEraseLine : Hci :=
  { hciDemo with gacCmdMsg := str "EE 01" ++ List.replicate 59 0, pcCmdPtr := 5 }

/-- An empty FIFO with stale bytes in the array and both pointers at offset 9. -/
def rxEmpty : RxBuf :=
  { acRx0buffer := List.replicate 64 0xEE, pcRx0Head := 9, pcRx0Tail := 9, bRx0Count := 0 }

/-- The bit number `OCIE1A` of the register `TIMSK1`, as avr/io.h gives it for the
ATmega328P. -/
def OCIE1A : Nat := 1

/-- The macro `ENABLE_TICK_TIMER` of periph.h. -/
def ENABLE_TICK_TIMER (t : Tasks) : Tasks :=
  { t with TIMSK1 := t.TIMSK1 ||| (1 <<< OCIE1A) }

/-- The macro `DISABLE_TICK_TIMER` of periph.h; the complement is taken within the eight
bits of the register. -/
def DISABLE_TICK_TIMER (t : Tasks) : Tasks :=
  { t with TIMSK1 := t.TIMSK1 &&& (0xFF ^^^ (1 <<< OCIE1A)) }

/-- The function `millisec_timer` of periph.c: the value returned and the state left. -/
def millisec_timer (t : Tasks) : Nat × Tasks :=
  ((DISABLE_TICK_TIMER t).ulClockTicks, ENABLE_TICK_TIMER (DISABLE_TICK_TIMER t))

/-- The reset state with the tick interrupt masked and 1234 ticks counted. -/
def tasksTickMasked : Tasks :=
  { tasksReset with ulClockTicks := 1234, TIMSK1 := 0 }

/-- The reset state with the tick interrupt enabled, as `initMCUtimers` leaves it, and
1234 ticks counted. -/
def tasksTickEnabled : Tasks :=
  { tasksReset with ulClockTicks := 1234, TIMSK1 := 0x02 }

/-- The assignment `wDelayStartTime = millisec_timer()` of `watch_data_cmd`: the 32-bit
tick count `t0` stored in a `uint16`. -/
def watchDelayStart (t0 : Nat) : Nat :=
  t0 % 65536

/-- The loop condition `millisec_timer() - wDelayStartTime < 100` of `watch_data_cmd`,
with `t` the 32-bit value returned by `millisec_timer`: the `uint16` is converted to 32
bits and the difference is taken modulo 2 ^ 32. -/
def watchDelayCond (t wDelayStartTime : Nat) : Bool :=
  decide ((t + 2 ^ 32 - wDelayStartTime) % 2 ^ 32 < 100)

/-- A non-interactive state holding the line `WM 100 4aF`, whose data token has three hex
digits; data address 0x100 holds 0. -/
def hciWriteLong : Hci :=
  { hciDemo with gacCmdMsg := str "WM 100 4aF" ++ List.replicate 54 0, pcCmdPtr := 10 }

/-- A non-interactive state holding the well-formed line `WM 100 4a`. -/
def hciWriteGood : Hci :=
  { hciDemo with gacCmdMsg := str "WM 100 4a" ++ List.replicate 55 0, pcCmdPtr := 9 }

/-- A hex digit, upper or lower case, in the words of the specification of `hexatoi`. -/
def isHexChar (c : Nat) : Bool :=
  (decide (0x30 ≤ c) && decide (c ≤ 0x39)) || (decide (0x41 ≤ c) && decide (c ≤ 0x46)) ||
    (decide (0x61 ≤ c) && decide (c ≤ 0x66))

/-- The value of a hex digit. -/
def hexDigitValue (c : Nat) : Nat :=
  if c ≤ 0x39 then c - 0x30 else if c ≤ 0x46 then c - 0x41 + 10 else c - 0x61 + 10

/-- The number that a string of hex digits denotes, most significant digit first. -/
def hexNumber (ds : List Nat) : Nat :=
  ds.foldl (fun a c => 16 * a + hexDigitValue c) 0

/-- The decimal digits of `n` as ASCII characters, in `width` places, most significant
first, with leading zeros. -/
def decPadded (n width : Nat) : List Nat :=
  (List.range width).map (fun i => 0x30 + n / 10 ^ (width - 1 - i) % 10)

/-- The character that `putHexDigit` sends for the argument `d`. -/
def hexDigitChar (d : Nat) : Nat :=
  if d % 16 < 10 then 0x30 + d % 16 else 0x41 + d % 16 - 10

/-- The bytes that a run `f` of an output routine adds to the output in state `h`. -/
def written (f : Hci → Hci) (h : Hci) : List Nat :=
  (f h).tx.drop h.tx.length

/-- The bytes of a list received one after the other, each by a run of the receive
handler of its own, entered with that byte pending in the UART and given `fuel`
evaluations of the loop condition; `none` when a run is still going on when its fuel is
used up. -/
def rxReceiveAll (fuel : Nat) : List Nat → RxBuf → Option RxBuf
  | [], r => some r
  | b :: bs, r =>
    match USART0_RX_vect fuel [b] r with
    | some (_, r1) => rxReceiveAll fuel bs r1
    | none => none

/-- The data address to which the command function `f`, called in state `h`, stores a
byte: `write_data_mem_cmd` and `output_IOreg_cmd` do so when the line passes their
syntax check; no other command function stores through a computed address. -/
def storeAddr (f : pfnvoid) (h : Hci) : Option Nat :=
  match f with
  | pfnvoid.write_data_mem_cmd =>
    if !isHexDigit (h.msg 3) || !isHexDigit (h.msg 4) || !isHexDigit (h.msg 5)
        || h.msg 6 != SPACE || !isHexDigit (h.msg 7) || !isHexDigit (h.msg 8) then none
    else some (hexatoi (h.gacCmdMsg.drop 3))
  | pfnvoid.output_IOreg_cmd =>
    if !isHexDigit (h.msg 3) || !isHexDigit (h.msg 4) || h.msg 5 != SPACE
        || !isHexDigit (h.msg 6) || !isHexDigit (h.msg 7) then none
    else some ((hexatoi (h.gacCmdMsg.drop 3) + 0x20) % 65536)
  | _ => none

/-- The command function `f`, called in state `h`, stores no byte into `cRespCode` or
`yInteractive`. -/
def storeKeepsResp (f : pfnvoid) (h : Hci) : Bool :=
  match storeAddr f h with
  | none => true
  | some a =>
    cellAt h.layout a != some Cell.cRespCode && cellAt h.layout a != some Cell.yInteractive

/-- The command line held in `h` makes no command function store a byte into `cRespCode`
or `yInteractive`. -/
def dispatchKeepsResp (h : Hci) : Bool :=
  !(hci_exec_scan (toupper (h.msg 0)) (toupper (h.msg 1)) 250 0).2 ||
    storeKeepsResp
      (asCommandAt (hci_exec_scan (toupper (h.msg 0)) (toupper (h.msg 1)) 250 0).1).Function h

/-- The states of `HciReach` with one restriction: the state after the first part of
`hci_exec_command` counts only when the command function has stored no byte into
`cRespCode` or `yInteractive`. -/
inductive HciReachKept (env : Env) : Hci → Prop where
  | init (h0 : Hci) : HciReachKept env (hci_init h0)
  | input (h : Hci) (c : Nat) (h1 : Hci) :
      HciReachKept env h → hci_process_input env c h = Outcome.ret h1 → HciReachKept env h1
  | cleared (h : Hci) : HciReachKept env h → HciReachKept env (hci_clear_command h)
  | dispatched (h h1 : Hci) :
      HciReachKept env h → h.pcCmdPtr ≠ 0 → dispatchKeepsResp h = true →
      hci_exec_dispatch env h = Outcome.ret h1 → HciReachKept env h1

theorem rxInv_flush (r : RxBuf) (h : r.acRx0buffer.length = SERIAL_RX_BUF_SIZE) :
    RxInv (serialRxBufferFlush r) := by
  simp [RxInv, serialRxBufferFlush, h, SERIAL_RX_BUF_SIZE]

theorem rxContents_flush (r : RxBuf) : rxContents (serialRxBufferFlush r) = [] := by
  simp [rxContents, serialRxBufferFlush]

theorem rxInv_store (b : Nat) (r : RxBuf) (h : RxInv r) : RxInv (USART0_RX_store b r) := by
  unfold RxInv USART0_RX_store SERIAL_RX_BUF_SIZE at *
  obtain ⟨h1, h2, h3, h4⟩ := h
  split
  · refine ⟨by simp [h1], h2, by simp only; omega, ?_⟩
    simp only
    split <;> omega
  · exact ⟨h1, h2, h3, h4⟩

theorem rxContents_store (b : Nat) (r : RxBuf) (h : RxInv r)
    (hc : r.bRx0Count < SERIAL_RX_BUF_SIZE) :
    rxContents (USART0_RX_store b r) = rxContents r ++ [b] := by
  unfold RxInv SERIAL_RX_BUF_SIZE at h
  obtain ⟨h1, h2, h3, h4⟩ := h
  have hc2 : r.bRx0Count < 64 := hc
  have hm : (r.bRx0Count + 1) % 256 = r.bRx0Count + 1 := by omega
  simp only [rxContents, USART0_RX_store, hc, if_true, hm, List.range_succ, List.map_append,
    List.map_cons, List.map_nil]
  congr 1
  · apply List.map_congr_left
    intro i hi
    have hi2 : i < r.bRx0Count := List.mem_range.mp hi
    have hne : r.pcRx0Tail ≠ (r.pcRx0Head + i) % SERIAL_RX_BUF_SIZE := by
      unfold SERIAL_RX_BUF_SIZE; omega
    simp [List.getD_eq_getElem?_getD, List.getElem?_set_ne hne]
  · have ht : r.pcRx0Tail < r.acRx0buffer.length := by omega
    have he : (r.pcRx0Head + r.bRx0Count) % SERIAL_RX_BUF_SIZE = r.pcRx0Tail := by
      unfold SERIAL_RX_BUF_SIZE; omega
    simp [List.getD_eq_getElem?_getD, he, List.getElem?_set_self, ht]

theorem rxInv_getch (r : RxBuf) (h : RxInv r) : RxInv (getch r).2 := by
  unfold RxInv getch SERIAL_RX_BUF_SIZE at *
  obtain ⟨h1, h2, h3, h4⟩ := h
  split
  · refine ⟨h1, ?_, ?_, ?_⟩
    · simp only; split <;> omega
    · simp only; omega
    · simp only; split <;> omega
  · exact ⟨h1, h2, h3, h4⟩

theorem getch_of_ne (r : RxBuf) (hc : r.bRx0Count ≠ 0) :
    getch r = (r.acRx0buffer.getD r.pcRx0Head 0,
      { r with
        pcRx0Head := if r.pcRx0Head + 1 ≥ SERIAL_RX_BUF_SIZE then 0 else r.pcRx0Head + 1
        bRx0Count := (r.bRx0Count + 255) % 256 }) := by
  simp [getch, hc]

theorem rxContents_getch (r : RxBuf) (h : RxInv r) (hc : r.bRx0Count ≠ 0) :
    rxContents r = (getch r).1 :: rxContents (getch r).2 := by
  unfold RxInv SERIAL_RX_BUF_SIZE at h
  obtain ⟨h1, h2, h3, h4⟩ := h
  obtain ⟨c, hc1⟩ : ∃ c, r.bRx0Count = c + 1 := ⟨r.bRx0Count - 1, by omega⟩
  have hm : (c + 1 + 255) % 256 = c := by omega
  rw [getch_of_ne r hc]
  simp only [rxContents, hc1, hm, List.range_succ_eq_map, List.map_cons, List.map_map]
  congr 1
  · have : (r.pcRx0Head + 0) % SERIAL_RX_BUF_SIZE = r.pcRx0Head := by
      unfold SERIAL_RX_BUF_SIZE; omega
    rw [this]
  · apply List.map_congr_left
    intro i _
    have : (r.pcRx0Head + (i + 1)) % SERIAL_RX_BUF_SIZE =
        ((if r.pcRx0Head + 1 ≥ SERIAL_RX_BUF_SIZE then 0 else r.pcRx0Head + 1) + i) %
          SERIAL_RX_BUF_SIZE := by
      unfold SERIAL_RX_BUF_SIZE; split <;> omega
    simp [Function.comp, this]

theorem rxContents_length (r : RxBuf) : (rxContents r).length = r.bRx0Count := by
  simp [rxContents]

theorem store_count (b : Nat) (r : RxBuf) (hc : r.bRx0Count < SERIAL_RX_BUF_SIZE) :
    (USART0_RX_store b r).bRx0Count = r.bRx0Count + 1 := by
  have hc2 : r.bRx0Count < 64 := hc
  simp only [USART0_RX_store, hc, if_true]
  omega

theorem getch_count (r : RxBuf) (h : RxInv r) (hc : r.bRx0Count ≠ 0) :
    (getch r).2.bRx0Count = r.bRx0Count - 1 := by
  have h3 : r.bRx0Count ≤ 64 := h.2.2.1
  rw [getch_of_ne r hc]
  simp only
  omega

theorem store_full (b : Nat) (r : RxBuf) (hc : r.bRx0Count = SERIAL_RX_BUF_SIZE) :
    USART0_RX_store b r = r := by
  simp [USART0_RX_store, hc]

theorem rxRun_contents (ops : List RxOp) : ∀ r : RxBuf, RxInv r →
    rxAdmissible r.bRx0Count ops = true →
    (rxRun r ops).1 = (rxContents r ++ rxPushed ops).take (rxPops ops) := by
  induction ops with
  | nil => intro r _ _; simp [rxRun, rxPops]
  | cons op ops ih =>
    intro r hinv hadm
    cases op with
    | push b =>
      simp only [rxAdmissible, Bool.and_eq_true, decide_eq_true_eq] at hadm
      have hc : r.bRx0Count < SERIAL_RX_BUF_SIZE := by omega
      have hadm2 : rxAdmissible (USART0_RX_store b r).bRx0Count ops = true := by
        rw [store_count b r hc]; exact hadm.2
      simp only [rxRun, rxPushed, rxPops]
      rw [ih _ (rxInv_store b r hinv) hadm2, rxContents_store b r hinv hc]
      simp
    | pop =>
      simp only [rxAdmissible, Bool.and_eq_true, decide_eq_true_eq] at hadm
      have hc : r.bRx0Count ≠ 0 := by omega
      have hadm2 : rxAdmissible (getch r).2.bRx0Count ops = true := by
        rw [getch_count r hinv hc]; exact hadm.2
      simp only [rxRun, rxPushed, rxPops]
      rw [ih _ (rxInv_getch r hinv) hadm2, rxContents_getch r hinv hc]
      simp

theorem rxPushAll_fits (bs : List Nat) : ∀ r : RxBuf, RxInv r →
    r.bRx0Count + bs.length ≤ SERIAL_RX_BUF_SIZE →
    RxInv (rxPushAll bs r) ∧ rxContents (rxPushAll bs r) = rxContents r ++ bs := by
  induction bs with
  | nil => intro r h _; simp [rxPushAll, h]
  | cons b bs ih =>
    intro r hinv hlen
    simp only [List.length_cons] at hlen
    have hc : r.bRx0Count < SERIAL_RX_BUF_SIZE := by omega
    have h2 := ih (USART0_RX_store b r) (rxInv_store b r hinv)
      (by rw [store_count b r hc]; omega)
    rw [rxContents_store b r hinv hc] at h2
    simpa [rxPushAll] using h2

theorem rxPushAll_full (bs : List Nat) (r : RxBuf) (hc : r.bRx0Count = SERIAL_RX_BUF_SIZE) :
    rxPushAll bs r = r := by
  induction bs with
  | nil => rfl
  | cons b bs ih =>
    have : rxPushAll (b :: bs) r = rxPushAll bs (USART0_RX_store b r) := rfl
    rw [this, store_full b r hc, ih]

theorem rxPushAll_append (as bs : List Nat) (r : RxBuf) :
    rxPushAll (as ++ bs) r = rxPushAll bs (rxPushAll as r) := by
  simp [rxPushAll, List.foldl_append]

theorem getchN_contents (n : Nat) : ∀ r : RxBuf, RxInv r → n ≤ r.bRx0Count →
    (getchN n r).1 = (rxContents r).take n ∧
    (getchN n r).2.bRx0Count = r.bRx0Count - n := by
  induction n with
  | zero => intro r _ _; simp [getchN]
  | succ n ih =>
    intro r hinv hn
    have hc : r.bRx0Count ≠ 0 := by omega
    have h2 := ih (getch r).2 (rxInv_getch r hinv) (by rw [getch_count r hinv hc]; omega)
    rw [getch_count r hinv hc] at h2
    simp only [getchN]
    rw [h2.1, h2.2, rxContents_getch r hinv hc]
    constructor
    · simp
    · omega

/-- C1. From a flushed receive buffer, for every interleaving of pushes and `getch`
calls that never holds more than 64 unread bytes and never pops an empty buffer, the
bytes returned by `getch` are, in order, the bytes pushed: the list of returned bytes
is the list of pushed bytes cut to the number of pops. -/
theorem rx_fifo_order (r : RxBuf) (ops : List RxOp)
    (hlen : r.acRx0buffer.length = SERIAL_RX_BUF_SIZE)
    (hadm : rxAdmissible 0 ops = true) :
    (rxRun (serialRxBufferFlush r) ops).1 = (rxPushed ops).take (rxPops ops) := by
  have h := rxRun_contents ops (serialRxBufferFlush r) (rxInv_flush r hlen) hadm
  rw [h, rxContents_flush]
  simp

/-- With room in the FIFO and one byte pending in the UART, the receive handler returns
after storing that byte: a push is one run of the handler. -/
theorem USART0_RX_vect_single (b : Nat) (r : RxBuf) (fuel : Nat)
    (hc : r.bRx0Count < SERIAL_RX_BUF_SIZE) :
    USART0_RX_vect (fuel + 2) [b] r = some ([], USART0_RX_store b r) := by
  simp [USART0_RX_vect, hc]

set_option maxRecDepth 20000 in
/-- Witness of C1 on `rxDemoOps`, a sequence in which head and tail both wrap around. -/
theorem rx_fifo_order_witness :
    rxDemo.acRx0buffer.length = SERIAL_RX_BUF_SIZE ∧ rxAdmissible 0 rxDemoOps = true ∧
    (rxRun (serialRxBufferFlush rxDemo) rxDemoOps).1 =
      (rxPushed rxDemoOps).take (rxPops rxDemoOps) :=
  ⟨by decide, by decide, rx_fifo_order rxDemo rxDemoOps (by decide) (by decide)⟩

/-- The store block of the receive handler taken alone: offered a byte at 64 unread
bytes it leaves the array, head, tail and count as they were; and if more than 64 bytes
are offered to it from a flushed buffer, 64 successive `getch` calls return the first 64
of them, in order, after which `serialRxDataAvail` reports no data. The handler itself
does not get that far: it does not return from the first byte that finds the buffer
full. -/
theorem rx_overflow_drops :
    (∀ (b : Nat) (r : RxBuf), r.bRx0Count = 64 → USART0_RX_store b r = r) ∧
    (∀ (r : RxBuf) (bs : List Nat), r.acRx0buffer.length = SERIAL_RX_BUF_SIZE →
      64 < bs.length →
      (getchN 64 (rxPushAll bs (serialRxBufferFlush r))).1 = bs.take 64 ∧
      serialRxDataAvail (getchN 64 (rxPushAll bs (serialRxBufferFlush r))).2 = false) := by
  refine ⟨fun b r hc => store_full b r hc, ?_⟩
  intro r bs hlen hbs
  have hsplit : bs = bs.take 64 ++ bs.drop 64 := (List.take_append_drop 64 bs).symm
  have htl : (bs.take 64).length = 64 := by simp; omega
  have h0 := rxInv_flush r hlen
  have h1 := rxPushAll_fits (bs.take 64) (serialRxBufferFlush r) h0
    (by simp [serialRxBufferFlush, SERIAL_RX_BUF_SIZE])
  rw [rxContents_flush, List.nil_append] at h1
  have hcnt : (rxPushAll (bs.take 64) (serialRxBufferFlush r)).bRx0Count = 64 := by
    rw [← rxContents_length, h1.2, htl]
  have hall : rxPushAll bs (serialRxBufferFlush r) =
      rxPushAll (bs.take 64) (serialRxBufferFlush r) := by
    conv_lhs => rw [hsplit]
    rw [rxPushAll_append, rxPushAll_full _ _ hcnt]
  rw [hall]
  have h2 := getchN_contents 64 _ h1.1 (by omega)
  rw [h1.2, hcnt] at h2
  refine ⟨?_, ?_⟩
  · rw [h2.1]; simp
  · simp [serialRxDataAvail, h2.2]

/-- The store block at the full buffer `rxFull`, and offered 70 bytes from the flushed
`rxDemo`. -/
theorem rx_overflow_drops_witness :
    USART0_RX_store 0x41 rxFull = rxFull ∧
    (getchN 64 (rxPushAll (List.range 70) (serialRxBufferFlush rxDemo))).1 =
      (List.range 70).take 64 ∧
    serialRxDataAvail
      (getchN 64 (rxPushAll (List.range 70) (serialRxBufferFlush rxDemo))).2 = false :=
  ⟨rx_overflow_drops.1 0x41 rxFull (by decide),
   rx_overflow_drops.2 rxDemo (List.range 70) (by decide) (by decide)⟩

/-- Whatever is pending in the UART, the receive handler does not return once the bytes
pending are more than the free places of the ring buffer: it stores as many bytes as
there are free places and then finds the buffer full with a byte pending. -/
theorem USART0_RX_vect_over (fuel : Nat) :
    ∀ (bs : List Nat) (r : RxBuf), r.bRx0Count ≤ SERIAL_RX_BUF_SIZE →
      SERIAL_RX_BUF_SIZE < r.bRx0Count + bs.length → USART0_RX_vect fuel bs r = none := by
  induction fuel with
  | zero => intro bs r _ _; rfl
  | succ n ih =>
    intro bs r hle hgt
    cases bs with
    | nil => simp at hgt; omega
    | cons b rest =>
      by_cases hc : r.bRx0Count < SERIAL_RX_BUF_SIZE
      · simp only [USART0_RX_vect, if_pos hc]
        have hs := store_count b r hc
        apply ih
        · rw [hs]; omega
        · rw [hs]; simp at hgt; omega
      · simp only [USART0_RX_vect, if_neg hc]
        exact ih (b :: rest) r hle hgt

/-- With room for them in the ring buffer, bytes received one per run of the handler are
pushed one after the other, each run returning. -/
theorem rxReceiveAll_fits (fuel : Nat) :
    ∀ (bs : List Nat) (r : RxBuf), r.bRx0Count + bs.length ≤ SERIAL_RX_BUF_SIZE →
      rxReceiveAll (fuel + 2) bs r = some (rxPushAll bs r) := by
  intro bs
  induction bs with
  | nil => intro r _; rfl
  | cons b rest ih =>
    intro r hle
    simp only [List.length_cons] at hle
    have hc : r.bRx0Count < SERIAL_RX_BUF_SIZE := by omega
    have hs := store_count b r hc
    simp only [rxReceiveAll, USART0_RX_vect_single b r fuel hc]
    rw [ih (USART0_RX_store b r) (by rw [hs]; omega)]
    rfl

theorem rxReceiveAll_over (fuel : Nat) :
    ∀ (bs : List Nat) (r : RxBuf), r.bRx0Count ≤ SERIAL_RX_BUF_SIZE →
      SERIAL_RX_BUF_SIZE < r.bRx0Count + bs.length → rxReceiveAll fuel bs r = none := by
  intro bs
  induction bs with
  | nil => intro r hle hgt; simp at hgt; omega
  | cons b rest ih =>
    intro r hle hgt
    simp only [List.length_cons] at hgt
    by_cases hc : r.bRx0Count < SERIAL_RX_BUF_SIZE
    · have hs := store_count b r hc
      cases fuel with
      | zero => rfl
      | succ n =>
        cases n with
        | zero => simp [rxReceiveAll, USART0_RX_vect, hc]
        | succ m =>
          simp only [rxReceiveAll, USART0_RX_vect_single b r m hc]
          exact ih (USART0_RX_store b r) (by rw [hs]; omega) (by rw [hs]; omega)
    · have h1 : USART0_RX_vect fuel [b] r = none :=
        USART0_RX_vect_over fuel [b] r hle (by simp; omega)
      simp only [rxReceiveAll, h1]

/-- C2 (the code departs from the claim). When more than 64 bytes are received into a
flushed buffer with no `getch` in between, the receive handler does not drop the excess:
it stores 64 bytes and never returns from the byte after them, whether the bytes are all
pending in one run of the handler or each arrives in a run of its own. For every amount
of fuel the handler is still running, so control does not come back to the program and
no `getch` call delivers anything. -/
theorem rx_overflow_never_returns (fuel : Nat) (r : RxBuf) (bs : List Nat)
    (hbs : SERIAL_RX_BUF_SIZE < bs.length) :
    USART0_RX_vect fuel bs (serialRxBufferFlush r) = none ∧
    rxReceiveAll fuel bs (serialRxBufferFlush r) = none :=
  ⟨USART0_RX_vect_over fuel bs _ (by simp [serialRxBufferFlush])
      (by simpa [serialRxBufferFlush] using hbs),
    rxReceiveAll_over fuel bs _ (by simp [serialRxBufferFlush])
      (by simpa [serialRxBufferFlush] using hbs)⟩

set_option maxRecDepth 20000 in
/-- Witness of C2: 65 bytes received into the flushed `rxDemo`, a thousand evaluations
of the loop condition allowed to every run of the handler; the first 64 of them, received
alone, are all stored. -/
theorem rx_overflow_never_returns_witness :
    SERIAL_RX_BUF_SIZE < (List.range 65).length ∧
    (USART0_RX_vect 1000 (List.range 65) (serialRxBufferFlush rxDemo) = none ∧
      rxReceiveAll 1000 (List.range 65) (serialRxBufferFlush rxDemo) = none) ∧
    rxReceiveAll 1000 (List.range 64) (serialRxBufferFlush rxDemo) =
      some (rxPushAll (List.range 64) (serialRxBufferFlush rxDemo)) :=
  ⟨by decide, rx_overflow_never_returns 1000 rxDemo (List.range 65) (by decide),
    rxReceiveAll_fits 998 (List.range 64) (serialRxBufferFlush rxDemo) (by decide)⟩

/-- C3 (the code departs from the claim). Entered with the ring buffer full and a byte
pending in the UART, the receive handler never reads the data register, so the byte
stays pending and the loop does not end: for every amount of fuel the handler is still
running. -/
theorem rx_handler_full_never_returns (fuel : Nat) (b : Nat) (rest : List Nat) (r : RxBuf)
    (hc : r.bRx0Count = SERIAL_RX_BUF_SIZE) :
    USART0_RX_vect fuel (b :: rest) r = none := by
  induction fuel with
  | zero => rfl
  | succ n ih => simp [USART0_RX_vect, hc, ih]

/-- Witness of C3 at the full buffer `rxFull` with the single byte 0x41 pending, after a
thousand evaluations of the loop condition. -/
theorem rx_handler_full_never_returns_witness :
    rxFull.bRx0Count = SERIAL_RX_BUF_SIZE ∧ USART0_RX_vect 1000 [0x41] rxFull = none :=
  ⟨by decide, rx_handler_full_never_returns 1000 0x41 [] rxFull (by decide)⟩

/-! ### Lemmas on the tick handler and the scheduler -/

theorem divAt_pass (k : Nat) (t : Tasks) (h : DivAt k t) : DivAt k (doBackgroundTasks t) := by
  unfold DivAt at *
  unfold doBackgroundTasks update_LED_chaser
  simp only
  split_ifs <;> simp_all

theorem tick_effect (k : Nat) (t : Tasks) (h : DivAt k t) :
    DivAt (k + 1) (TIMER1_COMPA_vect t) ∧
    (TIMER1_COMPA_vect t).b5msecTaskReq = (decide ((k + 1) % 5 = 0) || t.b5msecTaskReq) ∧
    (TIMER1_COMPA_vect t).b50mSecTaskReq = (decide ((k + 1) % 50 = 0) || t.b50mSecTaskReq) ∧
    (TIMER1_COMPA_vect t).b500msecTaskReq =
      (decide ((k + 1) % 500 = 0) || t.b500msecTaskReq) := by
  obtain ⟨h1, h2, h3⟩ := h
  unfold DivAt TIMER1_COMPA_vect
  simp only [h1, h2, h3]
  split_ifs <;> simp_all <;> omega

theorem divAt_run (evs : List SchedEv) : ∀ (k : Nat) (t : Tasks), DivAt k t →
    DivAt (k + ticksIn evs) (schedRun t evs) := by
  induction evs with
  | nil => intro k t h; simpa [schedRun, ticksIn] using h
  | cons ev evs ih =>
    intro k t h
    cases ev with
    | tick =>
      have h2 := ih (k + 1) _ (tick_effect k t h).1
      simpa [schedRun, schedStep, ticksIn, Nat.add_assoc, Nat.add_comm 1] using h2
    | pass =>
      have h2 := ih k _ (divAt_pass k t h)
      simpa [schedRun, schedStep, ticksIn] using h2

theorem setsFast_eq (k : Nat) (t : Tasks) (h : DivAt k t) :
    setsFast t = decide ((k + 1) % 5 = 0) := by
  have h2 := (tick_effect k { t with b5msecTaskReq := false } h).2.1
  simpa [setsFast] using h2

theorem setsMedium_eq (k : Nat) (t : Tasks) (h : DivAt k t) :
    setsMedium t = decide ((k + 1) % 50 = 0) := by
  have h2 := (tick_effect k { t with b50mSecTaskReq := false } h).2.2.1
  simpa [setsMedium] using h2

theorem setsSlow_eq (k : Nat) (t : Tasks) (h : DivAt k t) :
    setsSlow t = decide ((k + 1) % 500 = 0) := by
  have h2 := (tick_effect k { t with b500msecTaskReq := false } h).2.2.2
  simpa [setsSlow] using h2

theorem countTicks_eq (f : Tasks → Bool) (m : Nat)
    (hf : ∀ k t, DivAt k t → f t = decide ((k + 1) % m = 0)) (evs : List SchedEv) :
    ∀ (k : Nat) (t : Tasks), DivAt k t →
      countTicks f t evs + k / m = (k + ticksIn evs) / m := by
  induction evs with
  | nil => intro k t _; simp [countTicks, ticksIn]
  | cons ev evs ih =>
    intro k t h
    cases ev with
    | tick =>
      have h2 := ih (k + 1) _ (tick_effect k t h).1
      have h3 : (k + 1) / m = k / m + if (k + 1) % m = 0 then 1 else 0 := by
        rw [Nat.succ_div]
        simp [Nat.dvd_iff_mod_eq_zero]
      simp only [countTicks, ticksIn, hf k t h, decide_eq_true_eq]
      rw [show k + (ticksIn evs + 1) = k + 1 + ticksIn evs by omega, ← h2, h3]
      omega
    | pass =>
      have h2 := ih k _ (divAt_pass k t h)
      simpa [countTicks, ticksIn] using h2

theorem pass_clears (t : Tasks) :
    (doBackgroundTasks t).b5msecTaskReq = false ∧
    (doBackgroundTasks t).b50mSecTaskReq = false ∧
    (doBackgroundTasks t).b500msecTaskReq = false := by
  unfold doBackgroundTasks update_LED_chaser
  simp only
  split_ifs <;> simp_all

theorem pass_idle (t : Tasks) (h1 : t.b5msecTaskReq = false) (h2 : t.b50mSecTaskReq = false)
    (h3 : t.b500msecTaskReq = false) : doBackgroundTasks t = t := by
  simp [doBackgroundTasks, h1, h2, h3]

/-- C9. From zeroed sub-dividers, along any interleaving of tick interrupts and
scheduler passes: the n-th invocation of the tick handler sets the 5 ms flag exactly
when n is a multiple of 5, the 50 ms flag exactly when n is a multiple of 50 and the
500 ms flag exactly when n is a multiple of 500; among the first N invocations the
flags are therefore set in N/5, N/50 and N/500 of them; an invocation that does not set
a flag leaves it as it found it, and a scheduler pass leaves all three flags clear, so
a cleared flag stays clear until the next invocation that sets it. -/
theorem tick_flags_exact (t0 : Tasks) (evs : List SchedEv)
    (h5 : t0.b5mSecTimer = 0) (h50 : t0.b50mSecTimer = 0) (h500 : t0.b500msecTimer = 0) :
    (setsFast (schedRun t0 evs) = decide ((ticksIn evs + 1) % 5 = 0) ∧
     setsMedium (schedRun t0 evs) = decide ((ticksIn evs + 1) % 50 = 0) ∧
     setsSlow (schedRun t0 evs) = decide ((ticksIn evs + 1) % 500 = 0)) ∧
    (countTicks setsFast t0 evs = ticksIn evs / 5 ∧
     countTicks setsMedium t0 evs = ticksIn evs / 50 ∧
     countTicks setsSlow t0 evs = ticksIn evs / 500) ∧
    ((TIMER1_COMPA_vect (schedRun t0 evs)).b5msecTaskReq =
       (setsFast (schedRun t0 evs) || (schedRun t0 evs).b5msecTaskReq) ∧
     (TIMER1_COMPA_vect (schedRun t0 evs)).b50mSecTaskReq =
       (setsMedium (schedRun t0 evs) || (schedRun t0 evs).b50mSecTaskReq) ∧
     (TIMER1_COMPA_vect (schedRun t0 evs)).b500msecTaskReq =
       (setsSlow (schedRun t0 evs) || (schedRun t0 evs).b500msecTaskReq)) ∧
    ((doBackgroundTasks (schedRun t0 evs)).b5msecTaskReq = false ∧
     (doBackgroundTasks (schedRun t0 evs)).b50mSecTaskReq = false ∧
     (doBackgroundTasks (schedRun t0 evs)).b500msecTaskReq = false) := by
  have hd0 : DivAt 0 t0 := ⟨by simp [h5], by simp [h50], by simp [h500]⟩
  have hd := divAt_run evs 0 t0 hd0
  rw [Nat.zero_add] at hd
  have hte := tick_effect _ _ hd
  refine ⟨⟨setsFast_eq _ _ hd, setsMedium_eq _ _ hd, setsSlow_eq _ _ hd⟩, ⟨?_, ?_, ?_⟩,
    ⟨?_, ?_, ?_⟩, pass_clears _⟩
  · simpa using countTicks_eq setsFast 5 setsFast_eq evs 0 t0 hd0
  · simpa using countTicks_eq setsMedium 50 setsMedium_eq evs 0 t0 hd0
  · simpa using countTicks_eq setsSlow 500 setsSlow_eq evs 0 t0 hd0
  · rw [setsFast_eq _ _ hd]; exact hte.2.1
  · rw [setsMedium_eq _ _ hd]; exact hte.2.2.1
  · rw [setsSlow_eq _ _ hd]; exact hte.2.2.2

/-- C10. A second scheduler pass run straight after a first one, with no tick interrupt
in between, executes no housekeeping block (the record of executed blocks does not
grow: no LED chaser update, no heartbeat toggle) and leaves the whole state as the first
pass left it. -/
theorem scheduler_pass_idempotent (t : Tasks) :
    (doBackgroundTasks (doBackgroundTasks t)).done = (doBackgroundTasks t).done ∧
    doBackgroundTasks (doBackgroundTasks t) = doBackgroundTasks t := by
  have h := pass_clears t
  have h2 := pass_idle (doBackgroundTasks t) h.1 h.2.1 h.2.2
  exact ⟨by rw [h2], h2⟩

/-! ### Lemmas on the command interface -/

theorem foldl_set_range (n : Nat) : ∀ l : List Nat, n ≤ l.length →
    (List.range n).foldl (fun a ubx => a.set ubx NUL) l = List.replicate n NUL ++ l.drop n := by
  induction n with
  | zero => intro l _; simp
  | succ n ih =>
    intro l hl
    have hn : n < l.length := by omega
    rw [List.range_succ, List.foldl_append, ih l (by omega)]
    simp only [List.foldl_cons, List.foldl_nil]
    rw [List.replicate_succ', List.append_assoc]
    simp only [List.set_append, List.length_replicate, Nat.lt_irrefl, if_false, Nat.sub_self]
    rw [List.drop_eq_getElem_cons hn]
    rfl

theorem clear_gacCmdMsg (h : Hci) (hl : h.gacCmdMsg.length = CMD_MSG_SIZE + 1) :
    (hci_clear_command h).gacCmdMsg = List.replicate (CMD_MSG_SIZE + 1) NUL := by
  simp only [hci_clear_command]
  rw [foldl_set_range _ _ (by omega)]
  simp [hl]

@[simp] theorem putch_core (b : Nat) (h : Hci) : (putch b h).core = h.core := rfl

@[simp] theorem NEW_LINE_core (h : Hci) : (NEW_LINE h).core = h.core := rfl

@[simp] theorem callBackgroundTasks_core (h : Hci) : (callBackgroundTasks h).core = h.core := rfl

@[simp] theorem putstrLoop_core (s : List Nat) : ∀ h : Hci, (putstrLoop s h).core = h.core := by
  induction s with
  | nil => intro h; rfl
  | cons c cs ih =>
    intro h
    unfold putstrLoop
    split_ifs <;> simp [ih]

@[simp] theorem putstr_core (s : List Nat) (h : Hci) : (putstr s h).core = h.core := by
  simp [putstr]

@[simp] theorem putstr_P_core (s : List Nat) (h : Hci) : (putstr_P s h).core = h.core := by
  simp [putstr_P]

@[simp] theorem putHexDigit_core (d : Nat) (h : Hci) : (putHexDigit d h).core = h.core := by
  unfold putHexDigit
  split_ifs <;> rfl

@[simp] theorem putHexByte_core (b : Nat) (h : Hci) : (putHexByte b h).core = h.core := by
  simp [putHexByte]

@[simp] theorem putHexWord_core (w : Nat) (h : Hci) : (putHexWord w h).core = h.core := by
  simp [putHexWord]

theorem foldl_core {α : Type} (f : Hci → α → Hci) (hf : ∀ s a, (f s a).core = s.core)
    (l : List α) : ∀ h : Hci, (l.foldl f h).core = h.core := by
  induction l with
  | nil => intro h; rfl
  | cons a l ih => intro h; simp [List.foldl_cons, ih, hf]

@[simp] theorem putDecWord_core (w p : Nat) (h : Hci) : (putDecWord w p h).core = h.core := by
  unfold putDecWord
  exact foldl_core _ (fun s d => putHexDigit_core d s) _ h

@[simp] theorem put_word_bits_from_core (w k : Nat) :
    ∀ h : Hci, (put_word_bits_from w k h).core = h.core := by
  induction k with
  | zero => intro h; rfl
  | succ k ih =>
    intro h
    unfold put_word_bits_from
    simp only [ih]
    split_ifs <;> simp

@[simp] theorem put_word_bits_core (w : Nat) (h : Hci) : (put_word_bits w h).core = h.core := by
  simp [put_word_bits]

@[simp] theorem dumpHexCols_core (c2 k : Nat) :
    ∀ (ubCol uwAddr : Nat) (h : Hci), (dumpHexCols c2 k ubCol uwAddr h).2.core = h.core := by
  induction k with
  | zero => intro _ _ h; rfl
  | succ k ih =>
    intro ubCol uwAddr h
    unfold dumpHexCols
    simp only [ih]
    split_ifs <;> simp

@[simp] theorem dumpAsciiCols_core (c2 k : Nat) :
    ∀ (uwAddr : Nat) (h : Hci), (dumpAsciiCols c2 k uwAddr h).2.core = h.core := by
  induction k with
  | zero => intro _ h; rfl
  | succ k ih =>
    intro uwAddr h
    unfold dumpAsciiCols
    simp only [ih]
    split_ifs <;> simp

@[simp] theorem dumpRows_core (c2 k : Nat) :
    ∀ (uwAddr : Nat) (h : Hci), (dumpRows c2 k uwAddr h).2.core = h.core := by
  induction k with
  | zero => intro _ h; rfl
  | succ k ih =>
    intro uwAddr h
    rw [dumpRows, ih]
    simp only [NEW_LINE_core, dumpAsciiCols_core, putch_core, dumpHexCols_core,
      putHexWord_core]

@[simp] theorem list_cmd_core (h : Hci) : (list_cmd h).core = h.core := by
  unfold list_cmd
  exact foldl_core _ (fun s a => putstr_P_core a s) _ h

@[simp] theorem version_cmd_core (env : Env) (h : Hci) : (version_cmd env h).core = h.core := by
  unfold version_cmd
  simp only
  split_ifs <;> simp

@[simp] theorem hci_put_resp_term_core (h : Hci) : (hci_put_resp_term h).core = h.core := by
  unfold hci_put_resp_term
  simp only
  split_ifs <;> simp

theorem core_fields {h h1 : Hci} (e : h1.core = h.core) :
    h1.gacCmdMsg = h.gacCmdMsg ∧ h1.pcCmdPtr = h.pcCmdPtr ∧ h1.cRespCode = h.cRespCode ∧
    h1.yInteractive = h.yInteractive ∧ h1.calls = h.calls := by
  simpa [Hci.core] using e

theorem hci_put_cmd_error_fields (h : Hci) :
    (hci_put_cmd_error h).gacCmdMsg = h.gacCmdMsg ∧
    (hci_put_cmd_error h).pcCmdPtr = h.pcCmdPtr ∧ (hci_put_cmd_error h).cRespCode = 0x21 ∧
    (hci_put_cmd_error h).yInteractive = h.yInteractive ∧
    (hci_put_cmd_error h).calls = h.calls := by
  unfold hci_put_cmd_error
  simp only
  split_ifs
  · have e := core_fields (putstr_core (str "\n! Command Error") { h with cRespCode := 0x21 })
    exact e
  · exact ⟨rfl, rfl, rfl, rfl, rfl⟩

theorem hci_clear_command_fields (h : Hci) :
    (hci_clear_command h).pcCmdPtr = 0 ∧
    (hci_clear_command h).cRespCode = normalCode h.yInteractive ∧
    (hci_clear_command h).yInteractive = h.yInteractive ∧
    (hci_clear_command h).calls = h.calls ∧ (hci_clear_command h).tx = h.tx := by
  simp [hci_clear_command, normalCode]

theorem show_errors_cmd_core (h : Hci) : (show_errors_cmd h).core = h.core := by
  have e := core_fields (put_word_bits_core h.gwSystemError h)
  simp [show_errors_cmd, Hci.core, e]

theorem show_flags_cmd_core (h : Hci) : (show_flags_cmd h).core = h.core := by
  have e := core_fields (put_word_bits_core h.gwDebugFlags h)
  simp [show_flags_cmd, Hci.core, e]

theorem read_data_mem_cmd_core (h : Hci) : (read_data_mem_cmd h).core = h.core := by
  unfold read_data_mem_cmd
  simp only
  split_ifs <;> simp

theorem input_IOreg_cmd_core (h : Hci) : (input_IOreg_cmd h).core = h.core := by
  unfold input_IOreg_cmd
  simp only
  split_ifs <;> simp

theorem watch_data_cmd_core (env : Env) (h : Hci) : (watch_data_cmd env h).st.core = h.core := by
  unfold watch_data_cmd
  simp only
  split_ifs <;> rfl

theorem dump_memory_cmd_fields (h : Hci) :
    (dump_memory_cmd h).calls = h.calls ∧
    (dump_memory_cmd h).yInteractive = h.yInteractive ∧
    ((dump_memory_cmd h).cRespCode = 0x21 ∨ (dump_memory_cmd h).cRespCode = h.cRespCode) := by
  unfold dump_memory_cmd
  simp only
  split_ifs with h1 h2
  · have e := hci_put_cmd_error_fields h
    exact ⟨e.2.2.2.2, e.2.2.2.1, Or.inl e.2.2.1⟩
  · have e := core_fields (dumpRows_core (toupper (h.msg 1)) 16
      ({ h with uwStartAddr := hexatoi (h.gacCmdMsg.drop 3) / 16 * 16 } : Hci).uwStartAddr
      { h with uwStartAddr := hexatoi (h.gacCmdMsg.drop 3) / 16 * 16 })
    exact ⟨e.2.2.2.2, e.2.2.2.1, Or.inr e.2.2.1⟩
  · have e := core_fields (dumpRows_core (toupper (h.msg 1)) 16 h.uwStartAddr h)
    exact ⟨e.2.2.2.2, e.2.2.2.1, Or.inr e.2.2.1⟩

/-- A store into the data space changes neither the observations nor the layout nor the
length of the command buffer. -/
theorem poke_frame (a v : Nat) (h : Hci) :
    (poke a v h).calls = h.calls ∧ (poke a v h).tx = h.tx ∧
    (poke a v h).bgCalls = h.bgCalls ∧ (poke a v h).layout = h.layout ∧
    (poke a v h).gacCmdMsg.length = h.gacCmdMsg.length := by
  unfold poke
  split <;> simp

/-- A store into `cRespCode` sets it to the byte stored. -/
theorem poke_cRespCode (a v : Nat) (h : Hci) (hc : cellAt h.layout a = some Cell.cRespCode) :
    (poke a v h).cRespCode = v ∧ (poke a v h).yInteractive = h.yInteractive := by
  unfold poke
  rw [hc]
  exact ⟨rfl, rfl⟩

/-- A store into a byte that is no variable of the model changes that byte of `sram`
and nothing else. -/
theorem poke_sram (a v : Nat) (h : Hci) (hc : cellAt h.layout a = none) :
    poke a v h = { h with sram := Function.update h.sram a v } := by
  unfold poke
  rw [hc]

theorem write_data_mem_cmd_calls (h : Hci) : (write_data_mem_cmd h).calls = h.calls := by
  unfold write_data_mem_cmd
  split_ifs
  · exact (hci_put_cmd_error_fields h).2.2.2.2
  · exact (poke_frame _ _ h).1

theorem output_IOreg_cmd_calls (h : Hci) : (output_IOreg_cmd h).calls = h.calls := by
  unfold output_IOreg_cmd
  split_ifs
  · exact (hci_put_cmd_error_fields h).2.2.2.2
  · exact (poke_frame _ _ h).1

/-- No command function changes the record of invoked command functions. -/
theorem callFunction_calls (env : Env) (f : pfnvoid) (h : Hci) :
    (callFunction env f h).st.calls = h.calls := by
  cases f <;> simp only [callFunction, Outcome.st]
  · simp [default_params_cmd]
  · exact (core_fields (list_cmd_core h)).2.2.2.2
  · simp [interactive_cmd, hci_clear_command]
  · exact (core_fields (version_cmd_core env h)).2.2.2.2
  · exact (core_fields (watch_data_cmd_core env h)).2.2.2.2
  · exact (core_fields (show_errors_cmd_core h)).2.2.2.2
  · exact (core_fields (show_flags_cmd_core h)).2.2.2.2
  · simp [reset_MCU_cmd, Outcome.st]
  · exact (dump_memory_cmd_fields h).1
  · exact (core_fields (read_data_mem_cmd_core h)).2.2.2.2
  · exact write_data_mem_cmd_calls h
  · exact (core_fields (input_IOreg_cmd_core h)).2.2.2.2
  · exact output_IOreg_cmd_calls h
  · simp [erase_eeprom_cmd]
  · simp [null_cmd]

theorem hci_put_resp_term_tx (h : Hci) :
    (hci_put_resp_term h).tx =
      h.tx ++ [0x0D, 0x0A, h.cRespCode] ++ (if h.yInteractive then [0x3E] else []) := by
  unfold hci_put_resp_term
  simp only
  split_ifs with h1 h2 h2
  · simp [putch]
  · exact absurd h1 h2
  · exact absurd h2 h1
  · simp [putch]

theorem isprint_ne_cr (c : Nat) (hp : isprint c = true) : c ≠ 0x0D := by
  simp only [isprint, Bool.and_eq_true, decide_eq_true_eq] at hp
  omega

theorem andThen_ret (h : Hci) (g : Hci → Outcome) : (Outcome.ret h).andThen g = g h := rfl

theorem andThen_calls (o : Outcome) (g : Hci → Outcome)
    (hg : ∀ x, (g x).st.calls = x.calls) : (o.andThen g).st.calls = o.st.calls := by
  cases o with
  | ret h => exact hg h
  | noReturn h => rfl

theorem hci_feed_append (env : Env) (as bs : List Nat) :
    ∀ h, hci_feed env (as ++ bs) h = (hci_feed env as h).andThen (hci_feed env bs) := by
  induction as with
  | nil => intro h; rfl
  | cons a as ih =>
    intro h
    simp only [List.cons_append, hci_feed]
    cases hci_process_input env a h with
    | ret h1 => exact ih h1
    | noReturn h1 => rfl

/-- A printable byte is stored at the cursor when the cursor is before offset 63, and
is echoed in interactive mode; no command function is invoked. -/
theorem process_printable (env : Env) (c : Nat) (h : Hci) (hp : isprint c = true) :
    ∃ h1, hci_process_input env c h = Outcome.ret h1 ∧ h1.calls = h.calls ∧
      h1.yInteractive = h.yInteractive ∧
      h1.gacCmdMsg = (if h.pcCmdPtr < CMD_MSG_SIZE then h.gacCmdMsg.set h.pcCmdPtr c
        else h.gacCmdMsg) ∧
      h1.pcCmdPtr = (if h.pcCmdPtr < CMD_MSG_SIZE then h.pcCmdPtr + 1 else h.pcCmdPtr) := by
  have hne := isprint_ne_cr c hp
  unfold hci_process_input
  simp only [hne, if_false, hp, if_true]
  refine ⟨_, rfl, ?_⟩
  split_ifs <;> simp [putch]

/-- A byte other than CR never leads to a command function. -/
theorem process_no_cr (env : Env) (c : Nat) (h : Hci) (hc : c ≠ 0x0D) :
    ∃ h1, hci_process_input env c h = Outcome.ret h1 ∧ h1.calls = h.calls := by
  unfold hci_process_input
  simp only [hc, if_false]
  split_ifs
  · exact ⟨_, rfl, by simp [putch]⟩
  · exact ⟨_, rfl, rfl⟩
  · exact ⟨_, rfl, by simp [putch]⟩
  · exact ⟨_, rfl, rfl⟩
  · refine ⟨_, rfl, ?_⟩
    rw [(core_fields (hci_put_resp_term_core _)).2.2.2.2]
    exact (hci_clear_command_fields h).2.2.2.1
  · exact ⟨_, rfl, rfl⟩

theorem msg_set (l : List Nat) (p c i : Nat) :
    (l.set p c).getD i NUL = if i = p ∧ p < l.length then c else l.getD i NUL := by
  simp only [List.getD_eq_getElem?_getD, List.getElem?_set]
  by_cases hip : p = i
  · subst hip
    by_cases hl : p < l.length
    · simp [hl]
    · simp [hl, List.getElem?_eq_none (Nat.le_of_not_lt hl)]
  · have hip2 : ¬ i = p := fun e => hip e.symm
    simp [hip, hip2]

/-- Printable bytes keep what lies before the cursor and never move the cursor back. -/
theorem feed_printable (env : Env) (cs : List Nat) : ∀ h : Hci,
    (∀ c ∈ cs, isprint c = true) →
    ∃ h1, hci_feed env cs h = Outcome.ret h1 ∧ h1.calls = h.calls ∧
      h1.yInteractive = h.yInteractive ∧ h.pcCmdPtr ≤ h1.pcCmdPtr ∧
      h1.gacCmdMsg.length = h.gacCmdMsg.length ∧
      ∀ i, i < h.pcCmdPtr → h1.msg i = h.msg i := by
  induction cs with
  | nil => intro h _; exact ⟨h, rfl, rfl, rfl, Nat.le_refl _, rfl, fun _ _ => rfl⟩
  | cons c cs ih =>
    intro h hp
    obtain ⟨h1, e1, k1, y1, g1, p1⟩ := process_printable env c h (hp c (List.mem_cons_self _ _))
    obtain ⟨h2, e2, k2, y2, le2, len2, m2⟩ := ih h1 (fun x hx => hp x (List.mem_cons_of_mem _ hx))
    refine ⟨h2, ?_, ?_, ?_, ?_, ?_, ?_⟩
    · simp only [hci_feed, e1, andThen_ret, e2]
    · rw [k2, k1]
    · rw [y2, y1]
    · rw [p1] at le2; split_ifs at le2 <;> omega
    · rw [len2, g1]; split_ifs <;> simp
    · intro i hi
      have hi1 : i < h1.pcCmdPtr := by rw [p1]; split_ifs <;> omega
      rw [m2 i hi1]
      simp only [Hci.msg, g1]
      split_ifs
      · rw [msg_set]; simp; omega
      · rfl


theorem scan_found : ∀ n, n < 16 →
    hci_exec_scan (asCommandAt n).cName1 (asCommandAt n).cName2 250 0 = (n, true) := by
  decide

theorem hci_exec_scan_succ (c1 c2 k n : Nat) :
    hci_exec_scan c1 c2 (k + 1) n =
      if (asCommandAt n).cName1 = 0x24 then (n, false)
      else if (asCommandAt n).cName1 = c1 ∧ (asCommandAt n).cName2 = c2 then (n, true)
      else hci_exec_scan c1 c2 k (n + 1) := rfl

theorem entry_not_last : ∀ n, n < 16 → (asCommandAt n).cName1 ≠ 0x24 := by
  decide

theorem entry_mem : ∀ n, n < 16 → asCommandAt n ∈ asCommand.take 16 := by
  decide

theorem scan_skip (c1 c2 k : Nat) (m : Nat) : ∀ n, n + m ≤ 16 →
    (∀ i, i < 16 → ¬ ((asCommandAt i).cName1 = c1 ∧ (asCommandAt i).cName2 = c2)) →
    hci_exec_scan c1 c2 (k + m) n = hci_exec_scan c1 c2 k (n + m) := by
  induction m with
  | zero => intro n _ _; rfl
  | succ m ih =>
    intro n hn hno
    rw [show k + (m + 1) = (k + m) + 1 by omega, hci_exec_scan_succ,
      if_neg (entry_not_last n (by omega)), if_neg (hno n (by omega)), ih (n + 1) (by omega) hno]
    congr 1
    omega

theorem scan_notfound (c1 c2 : Nat) (hno : matchesEntry c1 c2 = false) :
    hci_exec_scan c1 c2 250 0 = (16, false) := by
  have h1 : ∀ i, i < 16 →
      ¬ ((asCommandAt i).cName1 = c1 ∧ (asCommandAt i).cName2 = c2) := by
    intro i hi hm
    have hany : matchesEntry c1 c2 = true := by
      unfold matchesEntry
      rw [List.any_eq_true]
      exact ⟨asCommandAt i, entry_mem i hi, by simp [hm.1, hm.2]⟩
    rw [hno] at hany
    exact Bool.noConfusion hany
  have h2 := scan_skip c1 c2 234 16 0 (by omega) h1
  have h3 : hci_exec_scan c1 c2 234 (0 + 16) = (16, false) := by
    rw [show (234 : Nat) = 233 + 1 by rfl, hci_exec_scan_succ]
    rfl
  rw [← h3, ← h2]

theorem clear_after_term_calls (x : Hci) :
    (Outcome.ret (hci_clear_command (hci_put_resp_term x))).st.calls = x.calls := by
  simp only [Outcome.st]
  rw [(hci_clear_command_fields _).2.2.2.1, (core_fields (hci_put_resp_term_core x)).2.2.2.2]

theorem exec_found (env : Env) (h : Hci) (n : Nat)
    (hs : hci_exec_scan (toupper (h.msg 0)) (toupper (h.msg 1)) 250 0 = (n, true)) :
    (hci_exec_command env h).st.calls = h.calls ++ [(asCommandAt n).Function] := by
  unfold hci_exec_command hci_exec_dispatch
  simp only [hs, if_true]
  rw [andThen_calls _ _ clear_after_term_calls, callFunction_calls]
  split_ifs
  · rw [(core_fields (NEW_LINE_core h)).2.2.2.2]
  · rfl

theorem exec_notfound (env : Env) (h : Hci)
    (hno : matchesEntry (toupper (h.msg 0)) (toupper (h.msg 1)) = false) :
    hci_exec_command env h =
      Outcome.ret (hci_clear_command (hci_put_resp_term (hci_put_cmd_error h))) := by
  unfold hci_exec_command hci_exec_dispatch
  simp only [scan_notfound _ _ hno]
  rfl

theorem matchesEntry_nul (c1 : Nat) : matchesEntry c1 (toupper NUL) = false := by
  simp [matchesEntry, asCommand, toupper, NUL]

theorem matchesEntry_dollar (c2 : Nat) : matchesEntry (toupper 0x24) c2 = false := by
  simp [matchesEntry, asCommand, toupper]

theorem str_cmd_error : str "\n! Command Error" =
    [0x0A, 0x21, 0x20, 0x43, 0x6F, 0x6D, 0x6D, 0x61, 0x6E, 0x64, 0x20, 0x45, 0x72, 0x72, 0x6F,
      0x72] := by
  decide

theorem hci_put_cmd_error_tx (h : Hci) :
    (hci_put_cmd_error h).tx =
      h.tx ++ (if h.yInteractive then
        [0x0D, 0x0A, 0x21, 0x20, 0x43, 0x6F, 0x6D, 0x6D, 0x61, 0x6E, 0x64, 0x20, 0x45, 0x72,
          0x72, 0x6F, 0x72] else []) := by
  unfold hci_put_cmd_error
  simp only
  split_ifs with hi
  · rw [str_cmd_error]
    simp [putstr, putstrLoop, putch, callBackgroundTasks, NUL]
  · simp

theorem hci_feed_cons (env : Env) (c : Nat) (cs : List Nat) (h : Hci) :
    hci_feed env (c :: cs) h = (hci_process_input env c h).andThen (hci_feed env cs) := rfl

theorem process_cr_line (env : Env) (h : Hci) (hne : h.pcCmdPtr ≠ 0) :
    hci_process_input env 0x0D h = hci_exec_command env h := by
  simp [hci_process_input, hne]

theorem process_cr_empty (env : Env) (h : Hci) (he : h.pcCmdPtr = 0) :
    hci_process_input env 0x0D h = Outcome.ret (hci_put_resp_term h) := by
  simp [hci_process_input, he]

/-- C4. For each of the 16 entries of `asCommand` before the last one and every line
of 2 to 63 printable bytes whose first two bytes fold with `toupper` to the two name
characters of the entry, feeding the line and then CR to `hci_process_input` from the
idle state invokes the command function of that entry exactly once and no other: the
record of invoked command functions grows by that single function. -/
theorem dispatch_exactly_once (env : Env) (h : Hci) (n : Nat) (line : List Nat)
    (hidle : HciIdle h) (hn : n < 16)
    (hlo : 2 ≤ line.length) (hhi : line.length ≤ CMD_MSG_SIZE)
    (hp : ∀ c ∈ line, isprint c = true)
    (hc1 : toupper (line.getD 0 NUL) = (asCommandAt n).cName1)
    (hc2 : toupper (line.getD 1 NUL) = (asCommandAt n).cName2) :
    (hci_feed env (line ++ [0x0D]) h).st.calls = h.calls ++ [(asCommandAt n).Function] := by
  obtain ⟨hptr, hlen⟩ := hidle
  match line, hlo, hp, hc1, hc2 with
  | a :: b :: rest, _, hp, hc1, hc2 =>
    simp only [List.getD_cons_zero, List.getD_cons_succ] at hc1 hc2
    obtain ⟨s1, e1, k1, _, g1, p1⟩ := process_printable env a h (hp a (by simp))
    obtain ⟨s2, e2, k2, _, g2, p2⟩ := process_printable env b s1 (hp b (by simp))
    obtain ⟨s3, e3, k3, _, le3, _, m3⟩ := feed_printable env rest s2
      (fun x hx => hp x (by simp [hx]))
    simp only [hptr, CMD_MSG_SIZE, Nat.zero_lt_succ, if_true] at g1 p1
    rw [p1] at g2 p2
    simp only [CMD_MSG_SIZE, Nat.zero_add, Nat.one_lt_ofNat, if_true] at g2 p2
    have hm0 : s3.msg 0 = a := by
      rw [m3 0 (by omega)]
      simp only [Hci.msg, g2, g1, msg_set]
      simp [hlen, CMD_MSG_SIZE]
    have hm1 : s3.msg 1 = b := by
      rw [m3 1 (by omega)]
      simp only [Hci.msg, g2, g1, msg_set]
      simp [hlen, CMD_MSG_SIZE]
    have hne : s3.pcCmdPtr ≠ 0 := by omega
    have hfeed : hci_feed env (a :: b :: rest ++ [0x0D]) h = hci_exec_command env s3 := by
      rw [List.cons_append, List.cons_append, hci_feed_cons, e1, andThen_ret, hci_feed_cons,
        e2, andThen_ret, hci_feed_append, e3, andThen_ret, hci_feed_cons, process_cr_line env s3 hne]
      cases hci_exec_command env s3 <;> rfl
    rw [hfeed, exec_found env s3 n (by rw [hm0, hm1, hc1, hc2]; exact scan_found n hn),
      k3, k2, k1]

/-- C5. Whatever the assembler state and however long the sequence, input bytes none of
which is CR, processed one by one by `hci_process_input`, all return and invoke no
command function. -/
theorem no_dispatch_without_cr (env : Env) (cs : List Nat) :
    ∀ h : Hci, (∀ c ∈ cs, c ≠ 0x0D) →
      ∃ h1, hci_feed env cs h = Outcome.ret h1 ∧ h1.calls = h.calls := by
  induction cs with
  | nil => intro h _; exact ⟨h, rfl, rfl⟩
  | cons c cs ih =>
    intro h hc
    obtain ⟨h1, e1, k1⟩ := process_no_cr env c h (hc c (List.mem_cons_self _ _))
    obtain ⟨h2, e2, k2⟩ := ih h1 (fun x hx => hc x (List.mem_cons_of_mem _ hx))
    exact ⟨h2, by simp only [hci_feed, e1, andThen_ret, e2], by rw [k2, k1]⟩

/-- C6. In every assembler state (any contents of the 64-byte buffer, any cursor, either
mode) `hci_process_input` on ESC or on CAN returns without invoking a command function,
leaves the command buffer all NUL with the cursor at the start, and sends exactly the
response terminator: CR, LF, the normal response code of the current mode, then the
prompt character only in interactive mode. -/
theorem cancel_clears_line (env : Env) (h : Hci) (c : Nat) (hc : c = ESC ∨ c = CAN)
    (hlen : h.gacCmdMsg.length = CMD_MSG_SIZE + 1) :
    ∃ h1, hci_process_input env c h = Outcome.ret h1 ∧ h1.calls = h.calls ∧
      h1.gacCmdMsg = List.replicate (CMD_MSG_SIZE + 1) NUL ∧ h1.pcCmdPtr = 0 ∧
      h1.yInteractive = h.yInteractive ∧
      h1.tx = h.tx ++ [0x0D, 0x0A, normalCode h.yInteractive] ++
        (if h.yInteractive then [0x3E] else []) := by
  have hne : c ≠ 0x0D := by rcases hc with rfl | rfl <;> decide
  have hnp : isprint c = false := by rcases hc with rfl | rfl <;> decide
  have hf := hci_clear_command_fields h
  have ht := core_fields (hci_put_resp_term_core (hci_clear_command h))
  refine ⟨hci_put_resp_term (hci_clear_command h), ?_, ?_, ?_, ?_, ?_, ?_⟩
  · simp [hci_process_input, hne, hnp, hc]
  · rw [ht.2.2.2.2, hf.2.2.2.1]
  · rw [ht.1, clear_gacCmdMsg h hlen]
  · rw [ht.2.1, hf.1]
  · rw [ht.2.2.2.1, hf.2.2.1]
  · rw [hci_put_resp_term_tx, hf.2.1, hf.2.2.1, hf.2.2.2.2]

/-- C7. When the command line is not empty and the first two bytes of the buffer,
folded with `toupper`, are the name of no entry before the last one (as is the case for
a one-character line, whose second byte is NUL, and for a line that begins with the
symbol $ of the last entry), `hci_process_input` on CR returns without invoking a
command function, and sends: in non-interactive mode CR LF !, in interactive mode
CR LF, the text `! Command Error`, then CR LF ! and the prompt character. -/
theorem unknown_command_response (env : Env) (h : Hci) (hne : h.pcCmdPtr ≠ 0)
    (hno : matchesEntry (toupper (h.msg 0)) (toupper (h.msg 1)) = false ∨
      h.msg 1 = NUL ∨ h.msg 0 = 0x24) :
    ∃ h1, hci_process_input env 0x0D h = Outcome.ret h1 ∧ h1.calls = h.calls ∧
      h1.tx = h.tx ++ (if h.yInteractive then
        [0x0D, 0x0A] ++ str "! Command Error" ++ [0x0D, 0x0A, 0x21, 0x3E]
        else [0x0D, 0x0A, 0x21]) := by
  have hno2 : matchesEntry (toupper (h.msg 0)) (toupper (h.msg 1)) = false := by
    rcases hno with e | e | e
    · exact e
    · rw [e]; exact matchesEntry_nul _
    · rw [e]; exact matchesEntry_dollar _
  have he := hci_put_cmd_error_fields h
  have ht := core_fields (hci_put_resp_term_core (hci_put_cmd_error h))
  have hf := hci_clear_command_fields (hci_put_resp_term (hci_put_cmd_error h))
  refine ⟨hci_clear_command (hci_put_resp_term (hci_put_cmd_error h)), ?_, ?_, ?_⟩
  · rw [process_cr_line env h hne]
    exact exec_notfound env h hno2
  · rw [hf.2.2.2.1, ht.2.2.2.2, he.2.2.2.2]
  · rw [hf.2.2.2.2, hci_put_resp_term_tx, hci_put_cmd_error_tx, he.2.2.1, he.2.2.2.1]
    have hs : str "! Command Error" =
        [0x21, 0x20, 0x43, 0x6F, 0x6D, 0x6D, 0x61, 0x6E, 0x64, 0x20, 0x45, 0x72, 0x72, 0x6F,
          0x72] := by decide
    rw [hs]
    cases h.yInteractive <;> simp

theorem process_cancel (env : Env) (c : Nat) (h : Hci) (hc : c = ESC ∨ c = CAN) :
    hci_process_input env c h = Outcome.ret (hci_put_resp_term (hci_clear_command h)) := by
  have hne : c ≠ 0x0D := by rcases hc with rfl | rfl <;> decide
  have hnp : isprint c = false := by rcases hc with rfl | rfl <;> decide
  simp [hci_process_input, hne, hnp, hc]

theorem process_ignored (env : Env) (c : Nat) (h : Hci) (hcr : c ≠ 0x0D)
    (hp : isprint c = false) (hc : ¬ (c = ESC ∨ c = CAN)) :
    hci_process_input env c h = Outcome.ret h := by
  simp [hci_process_input, hcr, hp, hc]

/-- The response code that the first part of `hci_exec_command` leaves is ! when the
name is not in the table and when the command function is `erase_eeprom_cmd`. -/
theorem dispatch_error_code (env : Env) (h x : Hci)
    (hd : hci_exec_dispatch env h = Outcome.ret x) :
    ((hci_exec_scan (toupper (h.msg 0)) (toupper (h.msg 1)) 250 0).2 = false →
      x.cRespCode = 0x21) ∧
    ((hci_exec_scan (toupper (h.msg 0)) (toupper (h.msg 1)) 250 0).2 = true →
      (asCommandAt (hci_exec_scan (toupper (h.msg 0)) (toupper (h.msg 1)) 250 0).1).Function
        = pfnvoid.erase_eeprom_cmd → x.cRespCode = 0x21) := by
  unfold hci_exec_dispatch at hd
  simp only at hd
  generalize hci_exec_scan (toupper (h.msg 0)) (toupper (h.msg 1)) 250 0 = s at hd
  constructor
  · intro hs
    rw [if_neg (by simp [hs])] at hd
    rw [← Outcome.ret.inj hd]
    exact (hci_put_cmd_error_fields h).2.2.1
  · intro hs hf
    rw [if_pos hs, hf] at hd
    simp only [callFunction] at hd
    rw [← Outcome.ret.inj hd]
    rfl

/-- Every state of `HciReachKept` is one of `HciReach`. -/
theorem reachKept_reach (env : Env) (h : Hci) (hr : HciReachKept env h) : HciReach env h := by
  induction hr with
  | init h0 => exact HciReach.init h0
  | input h c h1 _ e ih => exact HciReach.input h c h1 ih e
  | cleared h _ ih => exact HciReach.cleared h ih
  | dispatched h h1 _ hne _ e ih => exact HciReach.dispatched h h1 ih hne e

/-- Witness of C4: the line `vn 1` and CR, fed to the idle state `hciDemo`, invoke
`version_cmd`, entry 3 of the table, once. -/
theorem dispatch_exactly_once_witness :
    (hci_feed envDemo (str "vn 1" ++ [0x0D]) hciDemo).st.calls =
      hciDemo.calls ++ [(asCommandAt 3).Function] :=
  dispatch_exactly_once envDemo hciDemo 3 (str "vn 1") ⟨rfl, rfl⟩ (by decide) (by decide)
    (by decide) (by decide) (by decide) (by decide)

/-- Witness of C5: a line with an ESC in it and no CR. -/
theorem no_dispatch_without_cr_witness :
    ∃ h1, hci_feed envDemo (str "VN 12\x1bab") hciDemo = Outcome.ret h1 ∧
      h1.calls = hciDemo.calls :=
  no_dispatch_without_cr envDemo (str "VN 12\x1bab") hciDemo (by decide)

/-- Witness of C6: ESC in the middle of the line held by `hciMidLine`. -/
theorem cancel_clears_line_witness :
    ∃ h1, hci_process_input envDemo ESC hciMidLine = Outcome.ret h1 ∧
      h1.calls = hciMidLine.calls ∧
      h1.gacCmdMsg = List.replicate (CMD_MSG_SIZE + 1) NUL ∧ h1.pcCmdPtr = 0 ∧
      h1.yInteractive = hciMidLine.yInteractive ∧
      h1.tx = hciMidLine.tx ++ [0x0D, 0x0A, normalCode hciMidLine.yInteractive] ++
        (if hciMidLine.yInteractive then [0x3E] else []) :=
  cancel_clears_line envDemo hciMidLine ESC (Or.inl rfl) (by decide)

/-- Witness of C7: CR after the line `ZZ` in non-interactive mode. -/
theorem unknown_command_response_witness :
    ∃ h1, hci_process_input envDemo 0x0D hciUnknown = Outcome.ret h1 ∧
      h1.calls = hciUnknown.calls ∧
      h1.tx = hciUnknown.tx ++ (if hciUnknown.yInteractive then
        [0x0D, 0x0A] ++ str "! Command Error" ++ [0x0D, 0x0A, 0x21, 0x3E]
        else [0x0D, 0x0A, 0x21]) :=
  unknown_command_response envDemo hciUnknown (by decide) (Or.inl (by decide))

/-- Witness of C9 on `schedDemo` from the reset state: the 50th tick sets the 50 ms
flag, and 9 of the first 49 ticks set the 5 ms flag. -/
theorem tick_flags_exact_witness :
    setsMedium (schedRun tasksReset schedDemo) = decide ((ticksIn schedDemo + 1) % 50 = 0) ∧
    countTicks setsFast tasksReset schedDemo = ticksIn schedDemo / 5 :=
  ⟨(tick_flags_exact tasksReset schedDemo rfl rfl rfl).1.2.1,
   (tick_flags_exact tasksReset schedDemo rfl rfl rfl).2.1.1⟩

/-! ### Further lemmas and the properties of the command assembler -/

theorem isprint_of_range (c : Nat) (hc : 0x20 ≤ c ∧ c ≤ 0x7E) : isprint c = true := by
  simp [isprint, hc.1, hc.2]

theorem isprint_false_of_not_range (c : Nat) (hc : ¬ (0x20 ≤ c ∧ c ≤ 0x7E)) :
    isprint c = false := by
  simp only [isprint, Bool.and_eq_false_iff, decide_eq_false_iff_not]
  omega

/-- Everything `hci_process_input` does with a printable byte. -/
theorem process_printable_all (env : Env) (c : Nat) (h : Hci) (hp : isprint c = true) :
    ∃ h1, hci_process_input env c h = Outcome.ret h1 ∧ h1.calls = h.calls ∧
      h1.yInteractive = h.yInteractive ∧ h1.cRespCode = h.cRespCode ∧
      h1.gacCmdMsg = (if h.pcCmdPtr < CMD_MSG_SIZE then h.gacCmdMsg.set h.pcCmdPtr c
        else h.gacCmdMsg) ∧
      h1.pcCmdPtr = (if h.pcCmdPtr < CMD_MSG_SIZE then h.pcCmdPtr + 1 else h.pcCmdPtr) ∧
      h1.tx = h.tx ++ (if h.yInteractive then [c] else []) := by
  have hne := isprint_ne_cr c hp
  unfold hci_process_input
  simp only [hne, if_false, hp, if_true]
  refine ⟨_, rfl, ?_⟩
  split_ifs <;> simp [putch]

theorem respTerm_of_core {h h1 : Hci} (e : h1.core = h.core) : respTerm h1 = respTerm h := by
  have f := core_fields e
  simp [respTerm, f.2.2.1, f.2.2.2.1]

theorem hci_put_resp_term_tx2 (h : Hci) : (hci_put_resp_term h).tx = h.tx ++ respTerm h := by
  rw [hci_put_resp_term_tx, respTerm, List.append_assoc]

theorem feed_empty_crs (env : Env) (k : Nat) : ∀ h : Hci, h.pcCmdPtr = 0 →
    ∃ hk, hci_feed env (List.replicate k 0x0D) h = Outcome.ret hk ∧ hk.core = h.core ∧
      hk.tx = h.tx ++ (List.replicate k (respTerm h)).flatten := by
  induction k with
  | zero => intro h _; exact ⟨h, rfl, rfl, by simp⟩
  | succ k ih =>
    intro h he
    have hc := hci_put_resp_term_core h
    have hp : (hci_put_resp_term h).pcCmdPtr = 0 := by rw [(core_fields hc).2.1, he]
    obtain ⟨hk, e1, c1, t1⟩ := ih (hci_put_resp_term h) hp
    refine ⟨hk, ?_, by rw [c1, hc], ?_⟩
    · rw [List.replicate_succ, hci_feed_cons, process_cr_empty env h he, andThen_ret, e1]
    · rw [t1, hci_put_resp_term_tx2, respTerm_of_core hc, List.replicate_succ,
        List.flatten_cons, List.append_assoc]

/-- C13. With the command line empty (cursor at the start of the buffer),
`hci_process_input` on CR returns without invoking a command function, sends exactly one
response terminator and nothing else (no command-error text), and leaves buffer, cursor,
response code and mode as they were; so k CRs in a row on an empty line send exactly k
response terminators. -/
theorem empty_line_cr (env : Env) (h : Hci) (he : h.pcCmdPtr = 0) :
    (∃ h1, hci_process_input env 0x0D h = Outcome.ret h1 ∧ h1.calls = h.calls ∧
      h1.gacCmdMsg = h.gacCmdMsg ∧ h1.pcCmdPtr = h.pcCmdPtr ∧
      h1.cRespCode = h.cRespCode ∧ h1.yInteractive = h.yInteractive ∧
      h1.tx = h.tx ++ respTerm h) ∧
    (∀ k : Nat, ∃ hk, hci_feed env (List.replicate k 0x0D) h = Outcome.ret hk ∧
      hk.calls = h.calls ∧ hk.gacCmdMsg = h.gacCmdMsg ∧ hk.pcCmdPtr = h.pcCmdPtr ∧
      hk.cRespCode = h.cRespCode ∧ hk.yInteractive = h.yInteractive ∧
      hk.tx = h.tx ++ (List.replicate k (respTerm h)).flatten) := by
  constructor
  · have f := core_fields (hci_put_resp_term_core h)
    exact ⟨hci_put_resp_term h, process_cr_empty env h he, f.2.2.2.2, f.1, f.2.1, f.2.2.1,
      f.2.2.2.1, hci_put_resp_term_tx2 h⟩
  · intro k
    obtain ⟨hk, e1, c1, t1⟩ := feed_empty_crs env k h he
    have f := core_fields c1
    exact ⟨hk, e1, f.2.2.2.2, f.1, f.2.1, f.2.2.1, f.2.2.2.1, t1⟩

/-- Witness of C13: three CRs on the empty line of `hciDemo`. -/
theorem empty_line_cr_witness :
    ∃ hk, hci_feed envDemo (List.replicate 3 0x0D) hciDemo = Outcome.ret hk ∧
      hk.calls = hciDemo.calls ∧ hk.gacCmdMsg = hciDemo.gacCmdMsg ∧
      hk.pcCmdPtr = hciDemo.pcCmdPtr ∧ hk.cRespCode = hciDemo.cRespCode ∧
      hk.yInteractive = hciDemo.yInteractive ∧
      hk.tx = hciDemo.tx ++ (List.replicate 3 (respTerm hciDemo)).flatten :=
  (empty_line_cr envDemo hciDemo rfl).2 3

/-- C14. For a printable byte c (0x20..0x7E) in a state whose command line holds fewer
than 63 bytes, `hci_process_input` stores c at the cursor, moves the cursor on by one,
leaves every other byte of the buffer as it was, invokes no command function, and sends
exactly the byte c in interactive mode and nothing in non-interactive mode. -/
theorem printable_byte_appended (env : Env) (c : Nat) (h : Hci)
    (hc : 0x20 ≤ c ∧ c ≤ 0x7E) (hroom : h.pcCmdPtr < CMD_MSG_SIZE)
    (hlen : h.gacCmdMsg.length = CMD_MSG_SIZE + 1) :
    ∃ h1, hci_process_input env c h = Outcome.ret h1 ∧
      h1.msg h.pcCmdPtr = c ∧ h1.pcCmdPtr = h.pcCmdPtr + 1 ∧
      (∀ i, i ≠ h.pcCmdPtr → h1.msg i = h.msg i) ∧
      h1.gacCmdMsg.length = CMD_MSG_SIZE + 1 ∧ h1.calls = h.calls ∧
      h1.tx = h.tx ++ (if h.yInteractive then [c] else []) := by
  obtain ⟨h1, e, k, _, _, g, p, t⟩ := process_printable_all env c h (isprint_of_range c hc)
  rw [if_pos hroom] at g p
  have hlt : h.pcCmdPtr < h.gacCmdMsg.length := by
    rw [hlen]; unfold CMD_MSG_SIZE at *; omega
  refine ⟨h1, e, ?_, p, ?_, ?_, k, t⟩
  · simp only [Hci.msg, g, msg_set]
    simp [hlt]
  · intro i hi
    simp only [Hci.msg, g, msg_set]
    simp [hi]
  · rw [g, List.length_set, hlen]

/-- Witness of C14: the byte `2` typed after `VN 1` in the interactive state
`hciMidLine`. -/
theorem printable_byte_appended_witness :
    ∃ h1, hci_process_input envDemo 0x32 hciMidLine = Outcome.ret h1 ∧
      h1.msg hciMidLine.pcCmdPtr = 0x32 ∧ h1.pcCmdPtr = hciMidLine.pcCmdPtr + 1 ∧
      (∀ i, i ≠ hciMidLine.pcCmdPtr → h1.msg i = hciMidLine.msg i) ∧
      h1.gacCmdMsg.length = CMD_MSG_SIZE + 1 ∧ h1.calls = hciMidLine.calls ∧
      h1.tx = hciMidLine.tx ++ (if hciMidLine.yInteractive then [0x32] else []) :=
  printable_byte_appended envDemo 0x32 hciMidLine (by decide) (by decide) (by decide)

/-- C15 as stated fails: in the interactive state `hciFullLine`, whose line already holds
63 bytes, the printable byte A is written to the output although it is not stored. -/
theorem full_line_echo_counterexample :
    isprint 0x41 = true ∧ hciFullLine.pcCmdPtr = CMD_MSG_SIZE ∧
    (hci_process_input envDemo 0x41 hciFullLine).st.gacCmdMsg = hciFullLine.gacCmdMsg ∧
    (hci_process_input envDemo 0x41 hciFullLine).st.tx = hciFullLine.tx ++ [0x41] ∧
    (hci_process_input envDemo 0x41 hciFullLine).st.tx ≠ hciFullLine.tx := by
  decide

/-- C15, amended. A printable byte that arrives when the command line already holds 63
bytes is not stored: buffer, cursor, response code and mode stay as they were and no
command function is invoked; nothing is sent in non-interactive mode, and in interactive
mode the byte is still echoed. -/
theorem full_line_byte_dropped (env : Env) (c : Nat) (h : Hci)
    (hc : 0x20 ≤ c ∧ c ≤ 0x7E) (hfull : h.pcCmdPtr = CMD_MSG_SIZE) :
    ∃ h1, hci_process_input env c h = Outcome.ret h1 ∧
      h1.gacCmdMsg = h.gacCmdMsg ∧ h1.pcCmdPtr = h.pcCmdPtr ∧
      h1.cRespCode = h.cRespCode ∧ h1.yInteractive = h.yInteractive ∧
      h1.calls = h.calls ∧
      h1.tx = h.tx ++ (if h.yInteractive then [c] else []) := by
  obtain ⟨h1, e, k, y, r, g, p, t⟩ := process_printable_all env c h (isprint_of_range c hc)
  have hn : ¬ h.pcCmdPtr < CMD_MSG_SIZE := by omega
  rw [if_neg hn] at g p
  exact ⟨h1, e, g, p, r, y, k, t⟩

/-- Witness of the amended C15 at the state `hciFullLine` and the byte A. -/
theorem full_line_byte_dropped_witness :
    ∃ h1, hci_process_input envDemo 0x41 hciFullLine = Outcome.ret h1 ∧
      h1.gacCmdMsg = hciFullLine.gacCmdMsg ∧ h1.pcCmdPtr = hciFullLine.pcCmdPtr ∧
      h1.cRespCode = hciFullLine.cRespCode ∧ h1.yInteractive = hciFullLine.yInteractive ∧
      h1.calls = hciFullLine.calls ∧
      h1.tx = hciFullLine.tx ++ (if hciFullLine.yInteractive then [0x41] else []) :=
  full_line_byte_dropped envDemo 0x41 hciFullLine (by decide) (by decide)

/-- C17. A byte that is not CR, not printable (outside 0x20..0x7E) and neither ESC nor
CAN is ignored: `hci_process_input` returns the state it was given, so buffer, cursor,
response code and mode are unchanged, no command function is invoked and nothing is
sent. -/
theorem other_byte_ignored (env : Env) (c : Nat) (h : Hci) (hcr : c ≠ 0x0D)
    (hnp : ¬ (0x20 ≤ c ∧ c ≤ 0x7E)) (hesc : c ≠ ESC) (hcan : c ≠ CAN) :
    hci_process_input env c h = Outcome.ret h :=
  process_ignored env c h hcr (isprint_false_of_not_range c hnp)
    (fun e => e.elim hesc hcan)

/-- Witness of C17: the byte 0x07 (BEL) in the middle of a line. -/
theorem other_byte_ignored_witness :
    hci_process_input envDemo 0x07 hciMidLine = Outcome.ret hciMidLine :=
  other_byte_ignored envDemo 0x07 hciMidLine (by decide) (by decide) (by decide) (by decide)

theorem rxRun_inv (ops : List RxOp) : ∀ r : RxBuf, RxInv r → RxInv (rxRun r ops).2 := by
  induction ops with
  | nil => intro r h; exact h
  | cons op ops ih =>
    intro r h
    cases op with
    | push b => exact ih _ (rxInv_store b r h)
    | pop => exact ih _ (rxInv_getch r h)

/-- C20. In every state reached from `serialRxBufferFlush` by any sequence of pushes and
`getch` calls (pushes into a full buffer and `getch` on an empty one included), the
count is at most 64, head and tail both point inside the 64-byte array, and the tail is
`count` places after the head modulo 64. -/
theorem rx_invariant (r : RxBuf) (ops : List RxOp)
    (hlen : r.acRx0buffer.length = SERIAL_RX_BUF_SIZE) :
    (rxRun (serialRxBufferFlush r) ops).2.bRx0Count ≤ 64 ∧
    (rxRun (serialRxBufferFlush r) ops).2.pcRx0Head < 64 ∧
    (rxRun (serialRxBufferFlush r) ops).2.pcRx0Tail < 64 ∧
    (rxRun (serialRxBufferFlush r) ops).2.pcRx0Tail =
      ((rxRun (serialRxBufferFlush r) ops).2.pcRx0Head +
        (rxRun (serialRxBufferFlush r) ops).2.bRx0Count) % 64 ∧
    (rxRun (serialRxBufferFlush r) ops).2.acRx0buffer.length = 64 := by
  have h := rxRun_inv ops _ (rxInv_flush r hlen)
  unfold RxInv SERIAL_RX_BUF_SIZE at h
  obtain ⟨h1, h2, h3, h4⟩ := h
  refine ⟨h3, h2, ?_, h4, h1⟩
  omega

set_option maxRecDepth 20000 in
/-- Witness of C20 on the run `rxDemoOps` from the flushed `rxDemo`. -/
theorem rx_invariant_witness :
    (rxRun (serialRxBufferFlush rxDemo) rxDemoOps).2.bRx0Count ≤ 64 ∧
    (rxRun (serialRxBufferFlush rxDemo) rxDemoOps).2.pcRx0Head < 64 ∧
    (rxRun (serialRxBufferFlush rxDemo) rxDemoOps).2.pcRx0Tail < 64 ∧
    (rxRun (serialRxBufferFlush rxDemo) rxDemoOps).2.pcRx0Tail =
      ((rxRun (serialRxBufferFlush rxDemo) rxDemoOps).2.pcRx0Head +
        (rxRun (serialRxBufferFlush rxDemo) rxDemoOps).2.bRx0Count) % 64 ∧
    (rxRun (serialRxBufferFlush rxDemo) rxDemoOps).2.acRx0buffer.length = 64 :=
  rx_invariant rxDemo rxDemoOps (by decide)

theorem set_at_end (pre : List Nat) (m c : Nat) :
    (pre ++ List.replicate (m + 1) NUL).set pre.length c =
      (pre ++ [c]) ++ List.replicate m NUL := by
  rw [List.set_append]
  simp [List.replicate_succ]

/-- Printable bytes fed to a line whose buffer holds `pre` followed by NUL bytes fill the
buffer up to offset 63 and are dropped from there on. -/
theorem feed_printable_exact (env : Env) (cs : List Nat) : ∀ (h : Hci) (pre : List Nat),
    (∀ c ∈ cs, isprint c = true) → pre.length ≤ CMD_MSG_SIZE →
    h.gacCmdMsg = pre ++ List.replicate (CMD_MSG_SIZE + 1 - pre.length) NUL →
    h.pcCmdPtr = pre.length →
    ∃ h1, hci_feed env cs h = Outcome.ret h1 ∧
      h1.gacCmdMsg = (pre ++ cs).take CMD_MSG_SIZE ++
        List.replicate (CMD_MSG_SIZE + 1 - min (pre.length + cs.length) CMD_MSG_SIZE) NUL ∧
      h1.pcCmdPtr = min (pre.length + cs.length) CMD_MSG_SIZE := by
  induction cs with
  | nil =>
    intro h pre _ hl hg hp
    refine ⟨h, rfl, ?_, ?_⟩
    · simp only [List.append_nil, List.length_nil, Nat.add_zero, Nat.min_eq_left hl]
      rw [List.take_of_length_le hl]
      exact hg
    · simp [hp, Nat.min_eq_left hl]
  | cons c cs ih =>
    intro h pre hpr hl hg hp
    obtain ⟨h1, e, _, _, _, g, p, _⟩ :=
      process_printable_all env c h (hpr c (List.mem_cons_self _ _))
    have hrest : ∀ x ∈ cs, isprint x = true := fun x hx => hpr x (List.mem_cons_of_mem _ hx)
    unfold CMD_MSG_SIZE at *
    by_cases hroom : pre.length < 63
    · rw [hp, if_pos hroom] at g p
      have hg1 : h1.gacCmdMsg = (pre ++ [c]) ++
          List.replicate (63 + 1 - (pre ++ [c]).length) NUL := by
        rw [g, hg, show 63 + 1 - pre.length = (63 - pre.length) + 1 by omega, set_at_end]
        simp only [List.length_append, List.length_singleton]
        rw [show 63 + 1 - (pre.length + 1) = 63 - pre.length by omega]
      obtain ⟨h2, e2, g2, p2⟩ := ih h1 (pre ++ [c]) hrest
        (by simp only [List.length_append, List.length_singleton]; omega) hg1
        (by simp only [List.length_append, List.length_singleton]; exact p)
      refine ⟨h2, by rw [hci_feed_cons, e, andThen_ret, e2], ?_, ?_⟩
      · rw [g2]
        simp only [List.length_append, List.length_cons, List.length_nil,
          List.append_assoc, List.singleton_append]
        rw [show pre.length + (0 + 1) + cs.length = pre.length + (cs.length + 1) by omega]
      · rw [p2]
        simp only [List.length_append, List.length_cons, List.length_nil]
        rw [show pre.length + (0 + 1) + cs.length = pre.length + (cs.length + 1) by omega]
    · have hfull : pre.length = 63 := by omega
      rw [hp, if_neg hroom] at g p
      obtain ⟨h2, e2, g2, p2⟩ := ih h1 pre hrest hl (by rw [g, hg]) p
      refine ⟨h2, by rw [hci_feed_cons, e, andThen_ret, e2], ?_, ?_⟩
      · rw [g2]
        have t1 : (pre ++ cs).take 63 = pre := by
          rw [List.take_append_of_le_length (by omega), List.take_of_length_le (by omega)]
        have t2 : (pre ++ c :: cs).take 63 = pre := by
          rw [List.take_append_of_le_length (by omega), List.take_of_length_le (by omega)]
        rw [t1, t2]
        simp only [List.length_cons]
        rw [show min (pre.length + cs.length) 63 = 63 by omega,
          show min (pre.length + (cs.length + 1)) 63 = 63 by omega]
      · rw [p2]
        simp only [List.length_cons]
        omega

theorem getD_padded (a : List Nat) (m : Nat) (ha : a.length ≤ CMD_MSG_SIZE) :
    (a ++ List.replicate m NUL).getD CMD_MSG_SIZE NUL = NUL := by
  rw [List.getD_eq_getElem?_getD, List.getElem?_append_right ha, List.getElem?_replicate]
  split_ifs <;> rfl

/-- C16. From the idle state, after any sequence of n printable bytes has been fed to
`hci_process_input`, the command buffer holds the first min(n, 63) bytes of the sequence
followed only by NUL bytes, the cursor is at offset min(n, 63), and the byte at index 63
is NUL: the line is NUL-terminated and cut at 63 characters. -/
theorem line_truncated_at_63 (env : Env) (h : Hci) (line : List Nat)
    (hidle : HciCleared h) (hp : ∀ c ∈ line, 0x20 ≤ c ∧ c ≤ 0x7E) :
    ∃ h1, hci_feed env line h = Outcome.ret h1 ∧
      h1.gacCmdMsg = line.take (min line.length 63) ++
        List.replicate (64 - min line.length 63) NUL ∧
      h1.pcCmdPtr = min line.length 63 ∧ h1.msg 63 = NUL := by
  obtain ⟨h0, hg⟩ := hidle
  obtain ⟨h1, e, g, p⟩ := feed_printable_exact env line h []
    (fun c hc => isprint_of_range c (hp c hc)) (by simp) (by simpa using hg) (by simpa using h0)
  simp only [List.nil_append, List.length_nil, Nat.zero_add, CMD_MSG_SIZE] at g p
  have ht : line.take (min line.length 63) = line.take 63 := by
    rcases Nat.le_total line.length 63 with hl | hl
    · rw [Nat.min_eq_left hl, List.take_of_length_le hl, List.take_of_length_le (Nat.le_refl _)]
    · rw [Nat.min_eq_right hl]
  refine ⟨h1, e, by rw [g, ht], p, ?_⟩
  rw [Hci.msg, g]
  exact getD_padded _ _ (by simp [CMD_MSG_SIZE])

set_option maxRecDepth 20000 in
/-- Witness of C16: seventy letters typed into the cleared `hciDemo`. -/
theorem line_truncated_at_63_witness :
    ∃ h1, hci_feed envDemo (List.replicate 70 0x61) hciDemo = Outcome.ret h1 ∧
      h1.gacCmdMsg = (List.replicate 70 0x61).take (min (List.replicate 70 0x61).length 63) ++
        List.replicate (64 - min (List.replicate 70 0x61).length 63) NUL ∧
      h1.pcCmdPtr = min (List.replicate 70 0x61).length 63 ∧ h1.msg 63 = NUL :=
  line_truncated_at_63 envDemo hciDemo (List.replicate 70 0x61) ⟨rfl, rfl⟩ (by decide)

theorem exec_found_eq (env : Env) (h : Hci) (n : Nat)
    (hs : hci_exec_scan (toupper (h.msg 0)) (toupper (h.msg 1)) 250 0 = (n, true)) :
    hci_exec_command env h =
      (callFunction env (asCommandAt n).Function
        { (if h.yInteractive then NEW_LINE h else h) with
          calls := (if h.yInteractive then NEW_LINE h else h).calls ++
            [(asCommandAt n).Function] }).andThen
        (fun h1 => Outcome.ret (hci_clear_command (hci_put_resp_term h1))) := by
  unfold hci_exec_command hci_exec_dispatch
  simp only [hs, if_true]

theorem version_cmd_tx (env : Env) (h : Hci) (hni : h.yInteractive = false) :
    (version_cmd env h).tx = h.tx ++ [0x56, 0x31, 0x2E, 0x32, 0x2E, 0x30, 0x32, 0x30] := by
  simp [version_cmd, putDecWord, decDigits, putHexDigit, putch, BUILD_VER_MAJOR,
    BUILD_VER_MINOR, BUILD_VER_DEBUG, hni]

theorem str_version : str "V1.2.020" = [0x56, 0x31, 0x2E, 0x32, 0x2E, 0x30, 0x32, 0x30] := by
  decide

theorem NEW_LINE_tx (h : Hci) : (NEW_LINE h).tx = h.tx ++ [0x0D, 0x0A] := by
  simp [NEW_LINE, putch]

/-- C11. From the idle state in non-interactive mode (normal response code -), with the
version fields 1, 2 and 20 of system.h, the bytes V, N, CR fed to `hci_process_input`
produce exactly the output `V1.2.020` followed by CR LF - : no echo, no build date, no
prompt character. -/
theorem version_scenario (env : Env) (h : Hci) (hidle : HciIdle h)
    (hni : h.yInteractive = false) (hrc : h.cRespCode = 0x2D) :
    ∃ h1, hci_feed env [0x56, 0x4E, 0x0D] h = Outcome.ret h1 ∧
      h1.tx = h.tx ++ str "V1.2.020" ++ [0x0D, 0x0A, 0x2D] := by
  obtain ⟨hptr, hlen⟩ := hidle
  obtain ⟨s1, e1, _, y1, r1, g1, p1, t1⟩ := process_printable_all env 0x56 h (by decide)
  obtain ⟨s2, e2, _, y2, r2, g2, p2, t2⟩ := process_printable_all env 0x4E s1 (by decide)
  simp only [hptr, CMD_MSG_SIZE, Nat.zero_lt_succ, if_true] at g1 p1
  rw [p1] at g2 p2
  simp only [CMD_MSG_SIZE, Nat.zero_add, Nat.one_lt_ofNat, if_true] at g2 p2
  rw [hni] at t1
  rw [y1, hni] at t2
  have hm0 : s2.msg 0 = 0x56 := by
    simp only [Hci.msg, g2, g1, msg_set]
    simp [hlen, CMD_MSG_SIZE]
  have hm1 : s2.msg 1 = 0x4E := by
    simp only [Hci.msg, g2, g1, msg_set]
    simp [hlen, CMD_MSG_SIZE]
  have hne : s2.pcCmdPtr ≠ 0 := by omega
  have hy2 : s2.yInteractive = false := by rw [y2, y1, hni]
  have hs : hci_exec_scan (toupper (s2.msg 0)) (toupper (s2.msg 1)) 250 0 = (3, true) := by
    rw [hm0, hm1]
    exact scan_found 3 (by decide)
  have hx := exec_found_eq env s2 3 hs
  rw [hy2] at hx
  simp only [Bool.false_eq_true, if_false] at hx
  have hf : (asCommandAt 3).Function = pfnvoid.version_cmd := by decide
  rw [hf] at hx
  obtain ⟨x, hxd⟩ : ∃ x : Hci, x = { s2 with calls := s2.calls ++ [pfnvoid.version_cmd] } :=
    ⟨_, rfl⟩
  have hxy : x.yInteractive = false := by rw [hxd]; exact hy2
  have hxr : x.cRespCode = 0x2D := by
    rw [hxd]; show s2.cRespCode = _; rw [r2, r1, hrc]
  have hxt : x.tx = h.tx := by
    rw [hxd]; show s2.tx = _; rw [t2, t1]; simp
  rw [← hxd] at hx
  simp only [callFunction, Outcome.andThen] at hx
  have hfeed : hci_feed env [0x56, 0x4E, 0x0D] h =
      Outcome.ret (hci_clear_command (hci_put_resp_term (version_cmd env x))) := by
    rw [hci_feed_cons, e1, andThen_ret, hci_feed_cons, e2, andThen_ret, hci_feed_cons,
      process_cr_line env s2 hne, hx]
    rfl
  refine ⟨_, hfeed, ?_⟩
  have hc := core_fields (version_cmd_core env x)
  rw [(hci_clear_command_fields _).2.2.2.2, hci_put_resp_term_tx, hc.2.2.1, hc.2.2.2.1,
    version_cmd_tx env _ hxy, str_version, hxy, hxr, hxt]
  simp

/-- Witness of C11 at the state `hciDemo`. -/
theorem version_scenario_witness :
    ∃ h1, hci_feed envDemo [0x56, 0x4E, 0x0D] hciDemo = Outcome.ret h1 ∧
      h1.tx = hciDemo.tx ++ str "V1.2.020" ++ [0x0D, 0x0A, 0x2D] :=
  version_scenario envDemo hciDemo ⟨rfl, rfl⟩ rfl rfl

/-- C12. For a command line named IM (either case) whose byte at index 3 is x,
`hci_process_input` on CR invokes `interactive_cmd` and returns with interactive mode on
exactly when x is 1, Y or y; the response terminator that closes this very command
already shows the new mode: CR LF = and the prompt character when switched on, CR LF -
and no prompt when switched off. Before it only the line break of the old interactive
mode is sent. -/
theorem interactive_mode_switch (env : Env) (h : Hci) (hne : h.pcCmdPtr ≠ 0)
    (hc1 : toupper (h.msg 0) = 0x49) (hc2 : toupper (h.msg 1) = 0x4D) :
    ∃ h1, hci_process_input env 0x0D h = Outcome.ret h1 ∧
      h1.calls = h.calls ++ [pfnvoid.interactive_cmd] ∧
      (h1.yInteractive = true ↔ (h.msg 3 = 0x31 ∨ h.msg 3 = 0x59 ∨ h.msg 3 = 0x79)) ∧
      h1.tx = h.tx ++ (if h.yInteractive then [0x0D, 0x0A] else []) ++
        (if h.msg 3 = 0x31 ∨ h.msg 3 = 0x59 ∨ h.msg 3 = 0x79 then [0x0D, 0x0A, 0x3D, 0x3E]
          else [0x0D, 0x0A, 0x2D]) := by
  have hs : hci_exec_scan (toupper (h.msg 0)) (toupper (h.msg 1)) 250 0 = (2, true) := by
    rw [hc1, hc2]
    exact scan_found 2 (by decide)
  have hx := exec_found_eq env h 2 hs
  have hf : (asCommandAt 2).Function = pfnvoid.interactive_cmd := by decide
  rw [hf] at hx
  obtain ⟨x, hxd⟩ : ∃ x : Hci, x = { (if h.yInteractive then NEW_LINE h else h) with
      calls := (if h.yInteractive then NEW_LINE h else h).calls ++
        [pfnvoid.interactive_cmd] } := ⟨_, rfl⟩
  have hxm : x.msg 3 = h.msg 3 := by
    rw [hxd]; split_ifs <;> simp [Hci.msg, NEW_LINE, putch]
  have hxc : x.calls = h.calls ++ [pfnvoid.interactive_cmd] := by
    rw [hxd]; split_ifs <;> simp [NEW_LINE, putch]
  have hxt : x.tx = h.tx ++ (if h.yInteractive then [0x0D, 0x0A] else []) := by
    rw [hxd]; split_ifs <;> simp [NEW_LINE, putch]
  rw [← hxd] at hx
  simp only [callFunction, Outcome.andThen] at hx
  obtain ⟨y, hyd⟩ : ∃ y : Hci, y = { x with yInteractive :=
      (if (x.msg 3 = 0x31 ∨ x.msg 3 = 0x59 ∨ x.msg 3 = 0x79) then true else false) } :=
    ⟨_, rfl⟩
  have hyy : y.yInteractive =
      (if h.msg 3 = 0x31 ∨ h.msg 3 = 0x59 ∨ h.msg 3 = 0x79 then true else false) := by
    rw [hyd, ← hxm]
  have hyc : y.calls = x.calls := by rw [hyd]
  have hyt : y.tx = x.tx := by rw [hyd]
  have hi : interactive_cmd x = hci_clear_command y := by rw [hyd]; rfl
  rw [hi] at hx
  have k1 := hci_clear_command_fields y
  have k2 := core_fields (hci_put_resp_term_core (hci_clear_command y))
  have k3 := hci_clear_command_fields (hci_put_resp_term (hci_clear_command y))
  refine ⟨_, (process_cr_line env h hne).trans hx, ?_, ?_, ?_⟩
  · rw [k3.2.2.2.1, k2.2.2.2.2, k1.2.2.2.1, hyc, hxc]
  · rw [k3.2.2.1, k2.2.2.2.1, k1.2.2.1, hyy]
    split_ifs with hon <;> simp [hon]
  · rw [k3.2.2.2.2, hci_put_resp_term_tx, k1.2.1, k1.2.2.1, k1.2.2.2.2, hyy, hyt, hxt]
    by_cases hon : h.msg 3 = 0x31 ∨ h.msg 3 = 0x59 ∨ h.msg 3 = 0x79
    · simp only [hon, if_true, normalCode]
      cases h.yInteractive <;> simp
    · simp only [hon, if_false, normalCode]
      cases h.yInteractive <;> simp

/-- Witness of C12: CR after the line `IM 1` in the non-interactive state `hciModeLine`. -/
theorem interactive_mode_switch_witness :
    ∃ h1, hci_process_input envDemo 0x0D hciModeLine = Outcome.ret h1 ∧
      h1.calls = hciModeLine.calls ++ [pfnvoid.interactive_cmd] ∧
      (h1.yInteractive = true ↔
        (hciModeLine.msg 3 = 0x31 ∨ hciModeLine.msg 3 = 0x59 ∨ hciModeLine.msg 3 = 0x79)) ∧
      h1.tx = hciModeLine.tx ++ (if hciModeLine.yInteractive then [0x0D, 0x0A] else []) ++
        (if hciModeLine.msg 3 = 0x31 ∨ hciModeLine.msg 3 = 0x59 ∨ hciModeLine.msg 3 = 0x79
          then [0x0D, 0x0A, 0x3D, 0x3E] else [0x0D, 0x0A, 0x2D]) :=
  interactive_mode_switch envDemo hciModeLine (by decide) (by decide) (by decide)

theorem exec_calls (env : Env) (h : Hci) :
    (hci_exec_command env h).st.calls = h.calls ++
      (if (hci_exec_scan (toupper (h.msg 0)) (toupper (h.msg 1)) 250 0).2 then
        [(asCommandAt (hci_exec_scan (toupper (h.msg 0)) (toupper (h.msg 1)) 250 0).1).Function]
      else []) := by
  unfold hci_exec_command hci_exec_dispatch
  simp only
  generalize hci_exec_scan (toupper (h.msg 0)) (toupper (h.msg 1)) 250 0 = s
  rw [andThen_calls _ _ clear_after_term_calls]
  split_ifs with hf hi
  · rw [callFunction_calls]
    simp [(core_fields (NEW_LINE_core h)).2.2.2.2]
  · rw [callFunction_calls]
  · simp [Outcome.st, (hci_put_cmd_error_fields h).2.2.2.2]

/-- C18. The choice of the command function is case-insensitive and depends only on the
first two bytes of the line: for two non-empty command lines whose first two bytes are
equal after `toupper`, the table scan of `hci_exec_command` stops at the same index with
the same found flag, and `hci_process_input` on CR invokes the same command function for
both, or none for both. -/
theorem selection_by_folded_name (env : Env) (h h2 : Hci)
    (hne : h.pcCmdPtr ≠ 0) (hne2 : h2.pcCmdPtr ≠ 0)
    (hc1 : toupper (h.msg 0) = toupper (h2.msg 0))
    (hc2 : toupper (h.msg 1) = toupper (h2.msg 1)) :
    hci_exec_scan (toupper (h.msg 0)) (toupper (h.msg 1)) 250 0 =
      hci_exec_scan (toupper (h2.msg 0)) (toupper (h2.msg 1)) 250 0 ∧
    ∃ sel : List pfnvoid, sel.length ≤ 1 ∧
      (hci_process_input env 0x0D h).st.calls = h.calls ++ sel ∧
      (hci_process_input env 0x0D h2).st.calls = h2.calls ++ sel := by
  refine ⟨by rw [hc1, hc2], ?_⟩
  refine ⟨if (hci_exec_scan (toupper (h.msg 0)) (toupper (h.msg 1)) 250 0).2 then
      [(asCommandAt (hci_exec_scan (toupper (h.msg 0)) (toupper (h.msg 1)) 250 0).1).Function]
    else [], ?_, ?_, ?_⟩
  · split_ifs <;> simp
  · rw [process_cr_line env h hne]
    exact exec_calls env h
  · rw [process_cr_line env h2 hne2, exec_calls env h2, hc1, hc2]

/-- Witness of C18: the lines `vn` (non-interactive state) and `VN 123` (interactive
state) select the same command function. -/
theorem selection_by_folded_name_witness :
    hci_exec_scan (toupper (hciLowerLine.msg 0)) (toupper (hciLowerLine.msg 1)) 250 0 =
      hci_exec_scan (toupper (hciUpperLine.msg 0)) (toupper (hciUpperLine.msg 1)) 250 0 ∧
    ∃ sel : List pfnvoid, sel.length ≤ 1 ∧
      (hci_process_input envDemo 0x0D hciLowerLine).st.calls = hciLowerLine.calls ++ sel ∧
      (hci_process_input envDemo 0x0D hciUpperLine).st.calls = hciUpperLine.calls ++ sel :=
  selection_by_folded_name envDemo hciLowerLine hciUpperLine (by decide) (by decide)
    (by decide) (by decide)

theorem foldl_set_length (idx : List Nat) : ∀ l : List Nat,
    (idx.foldl (fun a ubx => a.set ubx NUL) l).length = l.length := by
  induction idx with
  | nil => intro l; rfl
  | cons i idx ih => intro l; rw [List.foldl_cons, ih, List.length_set]

theorem clear_length (h : Hci) :
    (hci_clear_command h).gacCmdMsg.length = h.gacCmdMsg.length := by
  simp only [hci_clear_command]
  exact foldl_set_length _ _

theorem dump_memory_cmd_msg (h : Hci) : (dump_memory_cmd h).gacCmdMsg = h.gacCmdMsg := by
  unfold dump_memory_cmd
  simp only
  split_ifs with h1 h2
  · exact (hci_put_cmd_error_fields h).1
  · exact (core_fields (dumpRows_core (toupper (h.msg 1)) 16
      ({ h with uwStartAddr := hexatoi (h.gacCmdMsg.drop 3) / 16 * 16 } : Hci).uwStartAddr
      { h with uwStartAddr := hexatoi (h.gacCmdMsg.drop 3) / 16 * 16 })).1
  · exact (core_fields (dumpRows_core (toupper (h.msg 1)) 16 h.uwStartAddr h)).1

theorem write_data_mem_cmd_length (h : Hci) :
    (write_data_mem_cmd h).gacCmdMsg.length = h.gacCmdMsg.length := by
  unfold write_data_mem_cmd
  split_ifs
  · rw [(hci_put_cmd_error_fields h).1]
  · exact (poke_frame _ _ h).2.2.2.2

theorem output_IOreg_cmd_length (h : Hci) :
    (output_IOreg_cmd h).gacCmdMsg.length = h.gacCmdMsg.length := by
  unfold output_IOreg_cmd
  split_ifs
  · rw [(hci_put_cmd_error_fields h).1]
  · exact (poke_frame _ _ h).2.2.2.2

/-- No command function changes the length of the command buffer. -/
theorem callFunction_length (env : Env) (f : pfnvoid) (h : Hci) :
    (callFunction env f h).st.gacCmdMsg.length = h.gacCmdMsg.length := by
  cases f <;> simp only [callFunction, Outcome.st]
  · simp [default_params_cmd]
  · rw [(core_fields (list_cmd_core h)).1]
  · unfold interactive_cmd
    simp only
    rw [clear_length]
  · rw [(core_fields (version_cmd_core env h)).1]
  · exact congrArg List.length (core_fields (watch_data_cmd_core env h)).1
  · rw [(core_fields (show_errors_cmd_core h)).1]
  · rw [(core_fields (show_flags_cmd_core h)).1]
  · simp [reset_MCU_cmd, Outcome.st]
  · rw [dump_memory_cmd_msg]
  · rw [(core_fields (read_data_mem_cmd_core h)).1]
  · exact write_data_mem_cmd_length h
  · rw [(core_fields (input_IOreg_cmd_core h)).1]
  · exact output_IOreg_cmd_length h
  · simp [erase_eeprom_cmd]
  · simp [null_cmd]

theorem dispatch_length (env : Env) (h : Hci) :
    (hci_exec_dispatch env h).st.gacCmdMsg.length = h.gacCmdMsg.length := by
  unfold hci_exec_dispatch
  simp only
  generalize hci_exec_scan (toupper (h.msg 0)) (toupper (h.msg 1)) 250 0 = s
  split_ifs
  · rw [callFunction_length]
    simp [NEW_LINE, putch]
  · rw [callFunction_length]
  · simp [Outcome.st, (hci_put_cmd_error_fields h).1]

/-- Every command function other than `reset_MCU_cmd` and `watch_data_cmd` returns. -/
theorem callFunction_returns (env : Env) (f : pfnvoid) (h : Hci)
    (hr : f ≠ pfnvoid.reset_MCU_cmd) (hw : f ≠ pfnvoid.watch_data_cmd) :
    ∃ h1, callFunction env f h = Outcome.ret h1 := by
  cases f <;> first | exact ⟨_, rfl⟩ | exact absurd rfl hr | exact absurd rfl hw

theorem normalCode_ne_error (b : Bool) : normalCode b ≠ 0x21 := by
  cases b <;> decide

/-- C19. For a non-empty command line, in either mode: whenever `hci_exec_command`
returns (name found or not, error reported by the command function or not) the assembler
is back in idle, with all 64 buffer bytes NUL, the cursor at the start and the response
code reset to the normal code of the current mode, so that the error code ! does not
reach the terminator of the next command cycle. The terminator of this command cycle is
sent before the reset, as the last bytes of the cycle, and carries the response code
that the first part of `hci_exec_command` has left: the code ! when the name is not in
the table and when the command function is `erase_eeprom_cmd`, which reports an error.
And `hci_exec_command` does return unless the command function found is `reset_MCU_cmd`
or `watch_data_cmd`. -/
theorem exec_command_resets (env : Env) (h : Hci) (hne : h.pcCmdPtr ≠ 0)
    (hlen : h.gacCmdMsg.length = CMD_MSG_SIZE + 1) :
    (∀ h1, hci_process_input env 0x0D h = Outcome.ret h1 →
      (h1.gacCmdMsg = List.replicate (CMD_MSG_SIZE + 1) NUL ∧ h1.pcCmdPtr = 0 ∧
        h1.cRespCode = normalCode h1.yInteractive ∧ h1.cRespCode ≠ 0x21 ∧
        (hci_put_resp_term h1).tx = h1.tx ++ [0x0D, 0x0A, normalCode h1.yInteractive] ++
          (if h1.yInteractive then [0x3E] else [])) ∧
      ∃ x, hci_exec_dispatch env h = Outcome.ret x ∧
        h1 = hci_clear_command (hci_put_resp_term x) ∧
        h1.tx = x.tx ++ [0x0D, 0x0A, x.cRespCode] ++ (if x.yInteractive then [0x3E] else []) ∧
        h1.yInteractive = x.yInteractive ∧
        ((hci_exec_scan (toupper (h.msg 0)) (toupper (h.msg 1)) 250 0).2 = false →
          x.cRespCode = 0x21) ∧
        ((hci_exec_scan (toupper (h.msg 0)) (toupper (h.msg 1)) 250 0).2 = true →
          (asCommandAt (hci_exec_scan (toupper (h.msg 0)) (toupper (h.msg 1)) 250 0).1).Function
            = pfnvoid.erase_eeprom_cmd → x.cRespCode = 0x21)) ∧
    (((hci_exec_scan (toupper (h.msg 0)) (toupper (h.msg 1)) 250 0).2 = true →
        (asCommandAt (hci_exec_scan (toupper (h.msg 0)) (toupper (h.msg 1)) 250 0).1).Function
          ≠ pfnvoid.reset_MCU_cmd ∧
        (asCommandAt (hci_exec_scan (toupper (h.msg 0)) (toupper (h.msg 1)) 250 0).1).Function
          ≠ pfnvoid.watch_data_cmd) →
      ∃ h1, hci_process_input env 0x0D h = Outcome.ret h1) := by
  rw [process_cr_line env h hne]
  constructor
  · intro h1 e
    unfold hci_exec_command at e
    have hdl := dispatch_length env h
    cases hd : hci_exec_dispatch env h with
    | ret x =>
      rw [hd] at e hdl
      have e2 : hci_clear_command (hci_put_resp_term x) = h1 := Outcome.ret.inj e
      have k := hci_clear_command_fields (hci_put_resp_term x)
      have hl : (hci_put_resp_term x).gacCmdMsg.length = CMD_MSG_SIZE + 1 := by
        rw [(core_fields (hci_put_resp_term_core x)).1]
        exact hdl.trans hlen
      have hcode : h1.cRespCode = normalCode h1.yInteractive := by
        rw [← e2, k.2.1, k.2.2.1]
      have hcodes := dispatch_error_code env h x hd
      refine ⟨⟨?_, ?_, hcode, ?_, ?_⟩, x, rfl, e2.symm, ?_, ?_, hcodes.1, hcodes.2⟩
      · rw [← e2]; exact clear_gacCmdMsg _ hl
      · rw [← e2]; exact k.1
      · rw [hcode]; exact normalCode_ne_error _
      · rw [hci_put_resp_term_tx, hcode]
      · rw [← e2, k.2.2.2.2, hci_put_resp_term_tx]
      · rw [← e2, k.2.2.1]
        exact (core_fields (hci_put_resp_term_core x)).2.2.2.1
    | noReturn x =>
      rw [hd] at e
      exact Outcome.noConfusion e
  · intro hsel
    unfold hci_exec_command hci_exec_dispatch
    simp only
    generalize hci_exec_scan (toupper (h.msg 0)) (toupper (h.msg 1)) 250 0 = s at hsel
    split_ifs with hf hi
    · obtain ⟨x, hx⟩ := callFunction_returns env (asCommandAt s.1).Function
        { NEW_LINE h with calls := (NEW_LINE h).calls ++ [(asCommandAt s.1).Function] }
        (hsel hf).1 (hsel hf).2
      rw [hx]
      exact ⟨_, rfl⟩
    · obtain ⟨x, hx⟩ := callFunction_returns env (asCommandAt s.1).Function
        { h with calls := h.calls ++ [(asCommandAt s.1).Function] }
        (hsel hf).1 (hsel hf).2
      rw [hx]
      exact ⟨_, rfl⟩
    · exact ⟨_, rfl⟩

/-- Witness of C19: CR after the line `EE 01` in non-interactive mode. The command
function sets the error code; the bytes sent for the command are CR, LF and !, the
state returned is idle with the normal code, and the terminator of the next command
cycle is CR, LF and -. -/
theorem exec_command_resets_witness :
    (hci_process_input envDemo 0x0D hciEraseLine).st.tx = [0x0D, 0x0A, 0x21] ∧
    (hci_put_resp_term (hci_process_input envDemo 0x0D hciEraseLine).st).tx =
      [0x0D, 0x0A, 0x21, 0x0D, 0x0A, 0x2D] ∧
    ∃ h1, hci_process_input envDemo 0x0D hciEraseLine = Outcome.ret h1 ∧
      (h1.gacCmdMsg = List.replicate (CMD_MSG_SIZE + 1) NUL ∧ h1.pcCmdPtr = 0 ∧
        h1.cRespCode = normalCode h1.yInteractive ∧ h1.cRespCode ≠ 0x21) ∧
      ∃ x, hci_exec_dispatch envDemo hciEraseLine = Outcome.ret x ∧ x.cRespCode = 0x21 ∧
        h1.tx = x.tx ++ [0x0D, 0x0A, x.cRespCode] ++ (if x.yInteractive then [0x3E] else []) :=
  ⟨by decide, by decide,
    (fun p =>
      ((exec_command_resets envDemo hciEraseLine (by decide) (by decide)).2 (by decide)).elim
        (fun h1 e => ⟨h1, e,
          ⟨(p h1 e).1.1, (p h1 e).1.2.1, (p h1 e).1.2.2.1, (p h1 e).1.2.2.2.1⟩,
          (p h1 e).2.elim (fun x q =>
            ⟨x, q.1, q.2.2.2.2.2 (by decide) (by decide), q.2.2.1⟩)⟩))
      (exec_command_resets envDemo hciEraseLine (by decide) (by decide)).1⟩

/-! ### The remaining properties of the FIFO, the scheduler and the output routines -/

/-- C21. Called on an empty receive buffer (count 0), `getch` returns NUL (0) and leaves
head, tail, count and the stored bytes as they were. -/
theorem getch_empty (r : RxBuf) (he : r.bRx0Count = 0) :
    (getch r).1 = 0 ∧ (getch r).2 = r := by
  simp [getch, he]

/-- Witness of C21 at the empty buffer `rxEmpty`. -/
theorem getch_empty_witness : (getch rxEmpty).1 = 0 ∧ (getch rxEmpty).2 = rxEmpty :=
  getch_empty rxEmpty (by decide)

/-- C22 as stated fails: in the idle state `hciDemo`, whose command line is empty, ESC
makes `hci_process_input` send a response terminator. -/
theorem cancel_on_empty_line_counterexample :
    hciDemo.pcCmdPtr = 0 ∧
    (hci_process_input envDemo ESC hciDemo).st.tx = hciDemo.tx ++ [0x0D, 0x0A, 0x2D] ∧
    (hci_process_input envDemo ESC hciDemo).st.tx ≠ hciDemo.tx := by
  decide

/-- C22, amended. ESC and CAN are taken as cancel also when the command line is empty:
in the idle state (buffer all NUL, cursor at the start, normal response code)
`hci_process_input` on ESC or CAN leaves buffer, cursor, response code and mode as they
were and invokes no command function, and sends exactly one response terminator. -/
theorem cancel_on_empty_line (env : Env) (h : Hci) (c : Nat) (hc : c = ESC ∨ c = CAN)
    (hidle : HciCleared h) (hcode : h.cRespCode = normalCode h.yInteractive) :
    ∃ h1, hci_process_input env c h = Outcome.ret h1 ∧
      h1.gacCmdMsg = h.gacCmdMsg ∧ h1.pcCmdPtr = h.pcCmdPtr ∧
      h1.cRespCode = h.cRespCode ∧ h1.yInteractive = h.yInteractive ∧
      h1.calls = h.calls ∧ h1.tx = h.tx ++ respTerm h := by
  obtain ⟨hptr, hbuf⟩ := hidle
  have hlen : h.gacCmdMsg.length = CMD_MSG_SIZE + 1 := by rw [hbuf]; simp
  have hf := hci_clear_command_fields h
  have ht := core_fields (hci_put_resp_term_core (hci_clear_command h))
  refine ⟨hci_put_resp_term (hci_clear_command h), process_cancel env c h hc, ?_, ?_, ?_, ?_,
    ?_, ?_⟩
  · rw [ht.1, clear_gacCmdMsg h hlen, hbuf]
  · rw [ht.2.1, hf.1, hptr]
  · rw [ht.2.2.1, hf.2.1, hcode]
  · rw [ht.2.2.2.1, hf.2.2.1]
  · rw [ht.2.2.2.2, hf.2.2.2.1]
  · rw [hci_put_resp_term_tx2, hf.2.2.2.2, respTerm, respTerm, hf.2.1, hf.2.2.1, hcode]

/-- Witness of the amended C22: CAN in the idle state `hciDemo`. -/
theorem cancel_on_empty_line_witness :
    ∃ h1, hci_process_input envDemo CAN hciDemo = Outcome.ret h1 ∧
      h1.gacCmdMsg = hciDemo.gacCmdMsg ∧ h1.pcCmdPtr = hciDemo.pcCmdPtr ∧
      h1.cRespCode = hciDemo.cRespCode ∧ h1.yInteractive = hciDemo.yInteractive ∧
      h1.calls = hciDemo.calls ∧ h1.tx = hciDemo.tx ++ respTerm hciDemo :=
  cancel_on_empty_line envDemo hciDemo CAN (Or.inr rfl) ⟨rfl, rfl⟩ rfl

/-- C23 as stated fails: `putstr` and `putstr_P` on the two-character string `ab` send two
characters and call `doBackgroundTasks` once, not twice. -/
theorem putstr_pass_counterexample :
    (putstr (str "ab") hciDemo).tx = hciDemo.tx ++ [0x61, 0x62] ∧
    (putstr (str "ab") hciDemo).bgCalls = hciDemo.bgCalls + 1 ∧
    (putstr (str "ab") hciDemo).bgCalls ≠ hciDemo.bgCalls + 2 ∧
    (putstr_P (str "ab") hciDemo).bgCalls = hciDemo.bgCalls + 1 := by
  decide

theorem putstrLoop_frame (s : List Nat) : ∀ h : Hci,
    (putstrLoop s h).bgCalls = h.bgCalls ∧ (putstrLoop s h).tasks = h.tasks := by
  induction s with
  | nil => intro h; exact ⟨rfl, rfl⟩
  | cons c cs ih =>
    intro h
    unfold putstrLoop
    split_ifs
    · exact ⟨rfl, rfl⟩
    · exact ih _
    · exact ih _

/-- C23, amended. Outputting a string runs the scheduler pass once per string, after its
last character: for every string, the character loop of `putstr` and `putstr_P` makes no
call of `doBackgroundTasks` and leaves the scheduler state alone, and the function then
calls `doBackgroundTasks` exactly once; `putch` itself makes no such call. -/
theorem putstr_one_pass (s : List Nat) (h : Hci) :
    ((putstrLoop s h).bgCalls = h.bgCalls ∧ (putstrLoop s h).tasks = h.tasks) ∧
    (putstr s h = callBackgroundTasks (putstrLoop s h) ∧
      (putstr s h).bgCalls = h.bgCalls + 1 ∧
      (putstr s h).tasks = doBackgroundTasks h.tasks) ∧
    (putstr_P s h = callBackgroundTasks (putstrLoop s h) ∧
      (putstr_P s h).bgCalls = h.bgCalls + 1 ∧
      (putstr_P s h).tasks = doBackgroundTasks h.tasks) ∧
    (∀ b, (putch b h).bgCalls = h.bgCalls ∧ (putch b h).tasks = h.tasks) := by
  have f := putstrLoop_frame s h
  refine ⟨f, ⟨rfl, ?_, ?_⟩, ⟨rfl, ?_, ?_⟩, fun b => ⟨rfl, rfl⟩⟩
  · simp [putstr, callBackgroundTasks, f.1]
  · simp [putstr, callBackgroundTasks, f.2]
  · simp [putstr_P, callBackgroundTasks, f.1]
  · simp [putstr_P, callBackgroundTasks, f.2]

set_option maxRecDepth 100000 in
theorem timsk_bits : ∀ v, v < 256 →
    ((v &&& (0xFF ^^^ (1 <<< OCIE1A))) ||| (1 <<< OCIE1A)).testBit OCIE1A = true ∧
    (v.testBit OCIE1A = true → (v &&& (0xFF ^^^ (1 <<< OCIE1A))) ||| (1 <<< OCIE1A) = v) ∧
    (v &&& (0xFF ^^^ (1 <<< OCIE1A))) ||| (1 <<< OCIE1A) = v ||| (1 <<< OCIE1A) := by
  decide

/-- C24 as stated fails: entered with the tick interrupt masked (OCIE1A clear),
`millisec_timer` returns with the bit set. -/
theorem millisec_timer_counterexample :
    tasksTickMasked.TIMSK1.testBit OCIE1A = false ∧
    (millisec_timer tasksTickMasked).2.TIMSK1.testBit OCIE1A = true ∧
    (millisec_timer tasksTickMasked).1 = tasksTickMasked.ulClockTicks := by
  decide

/-- C24, amended. `millisec_timer` returns the current value of the tick counter and
leaves the tick interrupt enabled: whatever the value of OCIE1A on entry the bit is set
on return, the counter and every other variable are unchanged, the other bits of TIMSK1
are unchanged, and when the bit was set on entry the whole state is unchanged. -/
theorem millisec_timer_reenables (t : Tasks) (hreg : t.TIMSK1 < 256) :
    (millisec_timer t).1 = t.ulClockTicks ∧
    (millisec_timer t).2.TIMSK1.testBit OCIE1A = true ∧
    (millisec_timer t).2 = { t with TIMSK1 := t.TIMSK1 ||| (1 <<< OCIE1A) } ∧
    (t.TIMSK1.testBit OCIE1A = true → (millisec_timer t).2 = t) := by
  have hb := timsk_bits t.TIMSK1 hreg
  have e : (millisec_timer t).2 = { t with TIMSK1 := t.TIMSK1 ||| (1 <<< OCIE1A) } := by
    simp only [millisec_timer, ENABLE_TICK_TIMER, DISABLE_TICK_TIMER]
    rw [hb.2.2]
  refine ⟨rfl, ?_, e, ?_⟩
  · rw [e, ← hb.2.2]
    exact hb.1
  · intro hset
    rw [e, ← hb.2.2, hb.2.1 hset]

/-- Witness of the amended C24 at the state `tasksTickEnabled`. -/
theorem millisec_timer_reenables_witness :
    (millisec_timer tasksTickEnabled).1 = tasksTickEnabled.ulClockTicks ∧
    (millisec_timer tasksTickEnabled).2 = tasksTickEnabled :=
  ⟨(millisec_timer_reenables tasksTickEnabled (by decide)).1,
   (millisec_timer_reenables tasksTickEnabled (by decide)).2.2.2 (by decide)⟩

/-- While the tick counter is below 65536 the delay test of `watch_data_cmd` measures
the elapsed ticks. -/
theorem watchDelayCond_small (t0 t : Nat) (h0 : t0 < 65536) (hle : t0 ≤ t)
    (ht : t < 2 ^ 32) : watchDelayCond t (watchDelayStart t0) = decide (t - t0 < 100) := by
  unfold watchDelayCond watchDelayStart
  congr 1
  apply propext
  constructor <;> intro h <;> omega

/-- C30 (the code departs from the claim). When the delay of `watch_data_cmd` starts at
the tick count 65536, the start time stored in the 16-bit `wDelayStartTime` is 0, and
the loop condition is false at once, with no tick elapsed, although fewer than 100 ticks
have elapsed. -/
theorem watch_delay_truncated :
    watchDelayStart 65536 = 0 ∧ 65536 - 65536 < 100 ∧
    watchDelayCond 65536 (watchDelayStart 65536) = false ∧
    (∀ t, 65536 ≤ t → t < 2 ^ 32 → watchDelayCond t (watchDelayStart 65536) = false) := by
  refine ⟨by decide, by decide, by decide, ?_⟩
  intro t h1 h2
  unfold watchDelayCond watchDelayStart
  simp only [decide_eq_false_iff_not]
  omega

/-- C25 (the code departs from the claim). For the line `WM 100 4aF`, whose data token
has three hex digits instead of two, `write_data_mem_cmd` does not set the error code and
writes a byte: the syntax check looks at offsets 3 to 8 only, `hexatoi` reads the three
digits, and the low byte 0xAF of 0x4AF is stored at data address 0x100. -/
theorem write_data_mem_long_token :
    hciWriteLong.sram 0x100 = 0 ∧
    (write_data_mem_cmd hciWriteLong).cRespCode = hciWriteLong.cRespCode ∧
    (write_data_mem_cmd hciWriteLong).cRespCode ≠ 0x21 ∧
    (write_data_mem_cmd hciWriteLong).sram 0x100 = 0xAF := by
  decide

/-- On the well-formed line `WM 100 4a` the byte 0x4A is written to data address 0x100
and the response code is left alone. -/
theorem write_data_mem_good_line :
    (write_data_mem_cmd hciWriteGood).cRespCode = hciWriteGood.cRespCode ∧
    (write_data_mem_cmd hciWriteGood).sram 0x100 = 0x4A := by
  decide

theorem hexctobin_spec (c : Nat) :
    (isHexChar c = false → hexctobin c = 0xFF) ∧
    (isHexChar c = true → hexctobin c = hexDigitValue c ∧ hexDigitValue c < 16) := by
  unfold isHexChar hexctobin hexDigitValue
  simp only [Bool.or_eq_false_iff, Bool.and_eq_false_iff, decide_eq_false_iff_not,
    Bool.or_eq_true, Bool.and_eq_true, decide_eq_true_eq]
  constructor
  · intro h
    split_ifs <;> omega
  · intro h
    split_ifs <;> omega

theorem hexatoiLoop_spec (k : Nat) : ∀ (j : Nat) (s : List Nat) (acc : Nat),
    acc < 16 ^ j → j + k ≤ 4 →
    hexatoiLoop k s acc =
      ((s.takeWhile isHexChar).take k).foldl (fun a c => 16 * a + hexDigitValue c) acc ∧
    hexatoiLoop k s acc < 16 ^ (j + k) := by
  induction k with
  | zero => intro j s acc ha _; exact ⟨by simp [hexatoiLoop], by simpa [hexatoiLoop] using ha⟩
  | succ k ih =>
    intro j s acc ha hjk
    have hmono : 16 ^ j ≤ 16 ^ (j + (k + 1)) := Nat.pow_le_pow_right (by decide) (by omega)
    cases s with
    | nil =>
      have : hexctobin NUL = 0xFF := by decide
      simp only [hexatoiLoop, List.headD_nil, this, if_true, List.takeWhile_nil, List.take_nil,
        List.foldl_nil]
      exact ⟨trivial, by omega⟩
    | cons c cs =>
      cases hc : isHexChar c with
      | false =>
        have h1 := (hexctobin_spec c).1 hc
        simp only [hexatoiLoop, List.headD_cons, h1, if_true, List.takeWhile_cons, hc]
        exact ⟨by simp, by omega⟩
      | true =>
        obtain ⟨h1, h2⟩ := (hexctobin_spec c).2 hc
        have hne : hexDigitValue c ≠ 0xFF := by omega
        have hp : 16 ^ (j + 1) = 16 * 16 ^ j := by rw [Nat.pow_succ]; omega
        have hb : 16 * acc + hexDigitValue c < 16 ^ (j + 1) := by omega
        have hle : 16 ^ (j + 1) ≤ 16 ^ 4 := Nat.pow_le_pow_right (by decide) (by omega)
        have hmod : (16 * acc + hexDigitValue c) % 65536 = 16 * acc + hexDigitValue c := by
          apply Nat.mod_eq_of_lt
          have : (16 : Nat) ^ 4 = 65536 := by decide
          omega
        have ih2 := ih (j + 1) cs (16 * acc + hexDigitValue c) hb (by omega)
        simp only [hexatoiLoop, List.headD_cons, h1, hne, if_false, List.tail_cons, hmod,
          List.takeWhile_cons, hc, if_true, List.take_succ_cons, List.foldl_cons]
        refine ⟨ih2.1, ?_⟩
        rw [show j + (k + 1) = j + 1 + k by omega]
        exact ih2.2

/-- C26. For every string s, `hexatoi` returns the number denoted by the longest prefix of
s made of hex digits (upper or lower case), cut to its first 4 characters; the result is
that exact number, below 65536, so the 16-bit arithmetic never wraps; and it is 0 when
the first character is not a hex digit. -/
theorem hexatoi_value (s : List Nat) :
    hexatoi s = hexNumber ((s.takeWhile isHexChar).take 4) ∧
    hexatoi s < 65536 ∧
    (isHexChar (s.headD NUL) = false → hexatoi s = 0) := by
  have h := hexatoiLoop_spec 4 0 s 0 (by decide) (by decide)
  refine ⟨h.1, ?_, ?_⟩
  · have := h.2
    simpa [hexatoi] using this
  · intro hf
    rw [show hexatoi s = hexatoiLoop 4 s 0 from rfl]
    rw [hexatoiLoop, (hexctobin_spec _).1 hf]
    rfl

theorem putHexDigit_dec (d : Nat) (h : Hci) (hd : d < 10) :
    (putHexDigit d h).tx = h.tx ++ [0x30 + d] := by
  have h1 : d % 16 = d := Nat.mod_eq_of_lt (by omega)
  simp [putHexDigit, h1, hd, putch]

theorem putDecWord_tx_of (w m : Nat) (h : Hci) (hm : m ≤ 5) :
    (putDecWord w m h).tx = h.tx ++ decPadded (w % 10 ^ m) m := by
  have d0 : w / 10000 % 10 < 10 := Nat.mod_lt _ (by decide)
  have d1 : w / 1000 % 10 < 10 := Nat.mod_lt _ (by decide)
  have d2 : w / 100 % 10 < 10 := Nat.mod_lt _ (by decide)
  have d3 : w / 10 % 10 < 10 := Nat.mod_lt _ (by decide)
  have d4 : w % 10 < 10 := Nat.mod_lt _ (by decide)
  interval_cases m
  all_goals
    simp only [putDecWord, decDigits, decPadded, List.drop, List.foldl, List.range_succ,
      List.range_zero, List.nil_append, List.map_cons, List.map_nil, List.map_append,
      List.append_assoc, List.cons_append, Nat.lt_irrefl, if_false, Nat.reduceSub,
      Nat.reduceLT, Nat.reduceGT, gt_iff_lt, putHexDigit_dec _ _ d0, putHexDigit_dec _ _ d1,
      putHexDigit_dec _ _ d2, putHexDigit_dec _ _ d3, putHexDigit_dec _ _ d4]
    try simp
    try omega
theorem putDecWord_clamp (w p : Nat) (h : Hci) :
    putDecWord w p h = putDecWord w (min p 5) h := by
  have e : (if p > 5 then 5 else p) = (if min p 5 > 5 then 5 else min p 5) := by
    split_ifs <;> omega
  unfold putDecWord
  simp only
  rw [e]

theorem decPadded_digits (n m : Nat) : ∀ c ∈ decPadded n m, 0x30 ≤ c ∧ c ≤ 0x39 := by
  intro c hc
  simp only [decPadded, List.mem_map, List.mem_range] at hc
  obtain ⟨i, _, rfl⟩ := hc
  have : n / 10 ^ (m - 1 - i) % 10 < 10 := Nat.mod_lt _ (by decide)
  omega

/-- C27. For every word w (every 16-bit word in particular) and every places argument p,
with m = min(p, 5),
`putDecWord` sends exactly m characters, all ASCII decimal digits: the decimal
representation of w mod 10^m in m places with leading zeros (so larger values lose their
most significant digits and smaller ones are zero-padded); nothing is sent when p = 0. -/
theorem putDecWord_output (w p : Nat) (h : Hci) :
    (putDecWord w p h).tx = h.tx ++ decPadded (w % 10 ^ min p 5) (min p 5) ∧
    (decPadded (w % 10 ^ min p 5) (min p 5)).length = min p 5 ∧
    (∀ c ∈ decPadded (w % 10 ^ min p 5) (min p 5), 0x30 ≤ c ∧ c ≤ 0x39) ∧
    (p = 0 → (putDecWord w p h).tx = h.tx) := by
  have e : (putDecWord w p h).tx = h.tx ++ decPadded (w % 10 ^ min p 5) (min p 5) := by
    rw [putDecWord_clamp]
    exact putDecWord_tx_of w (min p 5) h (Nat.min_le_right _ _)
  refine ⟨e, by simp [decPadded], decPadded_digits _ _, ?_⟩
  intro hp
  rw [e, hp]
  simp [decPadded]

/-- Two runs of `putDecWord`: the word 65535 in 3 places is sent as `535`, and the word
7 in 9 places as `00007`. -/
theorem putDecWord_examples :
    (putDecWord 65535 3 hciDemo).tx = hciDemo.tx ++ [0x35, 0x33, 0x35] ∧
    (putDecWord 7 9 hciDemo).tx = hciDemo.tx ++ [0x30, 0x30, 0x30, 0x30, 0x37] := by
  decide

theorem entry_last : (asCommandAt 16).cName1 = 0x24 := by
  decide

theorem entry_not_null : ∀ n, n < 16 → (asCommandAt n).Function ≠ pfnvoid.null_cmd := by
  decide

theorem scan_from (c1 c2 : Nat) (d : Nat) : ∀ n k, n + d = 16 → d + 1 ≤ k →
    hci_exec_scan c1 c2 k n = hci_exec_scan c1 c2 (d + 1) n ∧
    (hci_exec_scan c1 c2 k n).1 ≤ 16 ∧
    ((hci_exec_scan c1 c2 k n).2 = true → (hci_exec_scan c1 c2 k n).1 < 16) := by
  induction d with
  | zero =>
    intro n k hn hk
    obtain ⟨k1, rfl⟩ : ∃ k1, k = k1 + 1 := ⟨k - 1, by omega⟩
    have h16 : n = 16 := by omega
    subst h16
    rw [hci_exec_scan_succ, hci_exec_scan_succ, if_pos entry_last]
    exact ⟨rfl, Nat.le_refl _, fun hf => Bool.noConfusion hf⟩
  | succ d ih =>
    intro n k hn hk
    obtain ⟨k1, rfl⟩ : ∃ k1, k = k1 + 1 := ⟨k - 1, by omega⟩
    have hlt : n < 16 := by omega
    rw [hci_exec_scan_succ c1 c2 k1 n, hci_exec_scan_succ c1 c2 (d + 1) n]
    simp only [if_neg (entry_not_last n hlt)]
    by_cases hm : (asCommandAt n).cName1 = c1 ∧ (asCommandAt n).cName2 = c2
    · simp only [if_pos hm]
      exact ⟨trivial, by omega, fun _ => hlt⟩
    · simp only [if_neg hm]
      exact ih (n + 1) k1 (by omega) (by omega)

/-- C29. For every command line the table scan of `hci_exec_command` ends by one of its
two breaks within 17 iterations, any cap of 17 or more (the 250 of the source included)
giving the same result; the index at which it stops is an index of the 17-entry table
`asCommand`, so no entry past the last one is read; a command function is invoked only
through the index of an entry before the last one, and `null_cmd` is never invoked. -/
theorem scan_stays_in_table (env : Env) (h : Hci) (c1 c2 : Nat) :
    (∀ k, 17 ≤ k → hci_exec_scan c1 c2 k 0 = hci_exec_scan c1 c2 17 0) ∧
    (hci_exec_scan c1 c2 250 0).1 + 1 ≤ 17 ∧
    (hci_exec_scan c1 c2 250 0).1 < asCommand.length ∧
    ((hci_exec_scan c1 c2 250 0).2 = true →
      (hci_exec_scan c1 c2 250 0).1 < 16 ∧
      (asCommandAt (hci_exec_scan c1 c2 250 0).1).cName1 ≠ 0x24 ∧
      (asCommandAt (hci_exec_scan c1 c2 250 0).1).Function ≠ pfnvoid.null_cmd) ∧
    (∃ sel, (hci_exec_command env h).st.calls = h.calls ++ sel ∧ pfnvoid.null_cmd ∉ sel) := by
  have hs := scan_from c1 c2 16 0 250 (by decide) (by decide)
  have hlen : asCommand.length = 17 := by decide
  refine ⟨fun k hk => (scan_from c1 c2 16 0 k (by decide) (by omega)).1, by omega,
    by omega, ?_, ?_⟩
  · intro hf
    exact ⟨hs.2.2 hf, entry_not_last _ (hs.2.2 hf), entry_not_null _ (hs.2.2 hf)⟩
  · have hs2 := scan_from (toupper (h.msg 0)) (toupper (h.msg 1)) 16 0 250 (by decide)
      (by decide)
    refine ⟨_, exec_calls env h, ?_⟩
    split_ifs with hf
    · simp only [List.mem_singleton]
      exact fun e => entry_not_null _ (hs2.2.2 hf) e.symm
    · simp

/-! ### Hex output against hex input -/

theorem putHexDigit_tx (d : Nat) (h : Hci) :
    (putHexDigit d h).tx = h.tx ++ [hexDigitChar d] := by
  unfold putHexDigit hexDigitChar
  split_ifs <;> simp [putch]

theorem hexctobin_hexDigitChar (d : Nat) : hexctobin (hexDigitChar d) = d % 16 := by
  have hd : d % 16 < 16 := Nat.mod_lt _ (by decide)
  unfold hexctobin hexDigitChar
  split_ifs <;> omega

theorem hexatoiLoop_cons (k c : Nat) (cs : List Nat) (acc : Nat) :
    hexatoiLoop (k + 1) (c :: cs) acc =
      if hexctobin c = 0xFF then acc
      else hexatoiLoop k cs ((16 * acc + hexctobin c) % 65536) := rfl

theorem hexatoiLoop_digit (k d : Nat) (cs : List Nat) (acc : Nat) :
    hexatoiLoop (k + 1) (hexDigitChar d :: cs) acc =
      hexatoiLoop k cs ((16 * acc + d % 16) % 65536) := by
  have hd : d % 16 < 16 := Nat.mod_lt _ (by decide)
  rw [hexatoiLoop_cons, hexctobin_hexDigitChar, if_neg (by omega)]

theorem written_putHexWord (w : Nat) (h : Hci) :
    written (putHexWord w) h =
      [hexDigitChar (w / 4096 % 256), hexDigitChar (w / 256 % 256),
        hexDigitChar (w / 16 % 256), hexDigitChar (w % 16 % 256)] := by
  simp [written, putHexWord, putHexDigit_tx]

theorem written_putHexByte (b : Nat) (h : Hci) :
    written (putHexByte b) h = [hexDigitChar (b / 16), hexDigitChar b] := by
  simp [written, putHexByte, putHexDigit_tx]

theorem written_putHexDigit (d : Nat) (h : Hci) :
    written (putHexDigit d) h = [hexDigitChar d] := by
  simp [written, putHexDigit_tx]

/-- C31. Hex output and hex input are inverse: for every 16-bit word w, `hexatoi` applied
to the four characters that `putHexWord` sends for w (whatever follows them) returns w;
for every byte b, `hexatoi` applied to the two characters that `putHexByte` sends for b,
followed by a character that is not a hex digit, returns b; and `putHexDigit` sends one
character, which satisfies `isHexDigit`. -/
theorem hex_round_trip (h : Hci) :
    (∀ (w : Nat) (rest : List Nat), w < 65536 →
      (written (putHexWord w) h).length = 4 ∧
      hexatoi (written (putHexWord w) h ++ rest) = w) ∧
    (∀ (b : Nat) (rest : List Nat), b < 256 → isHexDigit (rest.headD NUL) = false →
      (written (putHexByte b) h).length = 2 ∧
      hexatoi (written (putHexByte b) h ++ rest) = b) ∧
    (∀ d : Nat, (written (putHexDigit d) h).length = 1 ∧
      ∀ c ∈ written (putHexDigit d) h, isHexDigit c = true) := by
  refine ⟨?_, ?_, ?_⟩
  · intro w rest hw
    rw [written_putHexWord]
    refine ⟨rfl, ?_⟩
    simp only [hexatoi, List.cons_append, List.nil_append, hexatoiLoop_digit]
    simp only [hexatoiLoop]
    omega
  · intro b rest hb hrest
    rw [written_putHexByte]
    refine ⟨rfl, ?_⟩
    have hstop : hexctobin (rest.headD NUL) = 0xFF := by
      by_contra hne
      rw [isHexDigit, if_neg hne] at hrest
      exact Bool.noConfusion hrest
    simp only [hexatoi, List.cons_append, List.nil_append, hexatoiLoop_digit]
    cases rest with
    | nil =>
      have : hexctobin NUL = 0xFF := by decide
      simp only [hexatoiLoop, List.headD_nil, this, if_true]
      omega
    | cons r rs =>
      simp only [List.headD_cons] at hstop
      rw [hexatoiLoop_cons, if_pos hstop]
      omega
  · intro d
    rw [written_putHexDigit]
    refine ⟨rfl, ?_⟩
    intro c hc
    simp only [List.mem_singleton] at hc
    have hd : d % 16 < 16 := Nat.mod_lt _ (by decide)
    rw [hc, isHexDigit, hexctobin_hexDigitChar, if_neg (by omega)]

set_option maxRecDepth 20000 in
/-- Hex round trip on three values: the word 0xBEEF, the byte 0x4A followed by a space,
and the character sent for the digit 11. -/
theorem hex_round_trip_examples :
    written (putHexWord 0xBEEF) hciDemo = [0x42, 0x45, 0x45, 0x46] ∧
    hexatoi (written (putHexWord 0xBEEF) hciDemo) = 0xBEEF ∧
    hexatoi (written (putHexByte 0x4A) hciDemo ++ [SPACE]) = 0x4A ∧
    written (putHexDigit 11) hciDemo = [0x42] := by
  decide

/-- Witness of C31: the word 0xBEEF and the byte 0x4A, each followed by a space. -/
theorem hex_round_trip_witness :
    hexatoi (written (putHexWord 0xBEEF) hciDemo ++ [SPACE]) = 0xBEEF ∧
    hexatoi (written (putHexByte 0x4A) hciDemo ++ [SPACE]) = 0x4A :=
  ⟨((hex_round_trip hciDemo).1 0xBEEF [SPACE] (by decide)).2,
   ((hex_round_trip hciDemo).2.1 0x4A [SPACE] (by decide) (by decide)).2⟩

end AVRMonitor
